import Mathlib

/-!
# OpinionANN: a three-layer feed-forward network with threaded batch training

Shallow embedding of `src/MiddleLayer.cpp` and `src/WordAnalysisLevel.cpp`.

* `Eigen::MatrixXf` values are matrices over the exact reals; a matrix whose
  shape is fixed by the constructors (`NEURONS_1ST_LAYER`, ...) carries that
  shape in its type.
* A nullable pointer is an `Option`; an out-of-range `operator[]` read and an
  integer division by zero make the enclosing function return `none`.
* The worker threads of `backpropagate` only read the live network and write
  to accumulators of their own, so they are run one after the other.
-/

namespace OpinionANN

/-! ## Definitions -/

/-- Line 103: `int threadsN = maxThreads < trainingExamples.size() ? maxThreads
: trainingExamples.size();`, for an `int maxThreads` that is not negative. -/
def threadsN (maxThreads size : ℕ) : ℕ :=
  if maxThreads < size then maxThreads else size

/-- Loop condition of line 131:
`j < examplesPerThread || j == examplesPerThread && j < threadsWithExtraExamples`. -/
def fillCondition (examplesPerThread threadsWithExtraExamples j : ℕ) : Bool :=
  j < examplesPerThread || (j == examplesPerThread && j < threadsWithExtraExamples)

/-- Lines 131-132, one worker's slice:
`for (int j = 0; <fillCondition>; j++) threadExamples->push_back(trainingExamples[example++]);`
started at loop counter `j` with the cursor `example` at `exampleIx`. A read at an index that is
not below `trainingExamples.size()` yields `none`. Returns the slice and the
cursor after the loop. -/
def fillThreadExamples {α : Type} (trainingExamples : List α)
    (examplesPerThread threadsWithExtraExamples : ℕ)
    (j exampleIx : ℕ) (threadExamples : List α) : Option (List α × ℕ) :=
  if h : fillCondition examplesPerThread threadsWithExtraExamples j = true then
    match trainingExamples[exampleIx]? with
    | none => none
    | some e =>
      fillThreadExamples trainingExamples examplesPerThread threadsWithExtraExamples
        (j + 1) (exampleIx + 1) (threadExamples ++ [e])
  else
    some (threadExamples, exampleIx)
termination_by examplesPerThread + 1 - j
decreasing_by
  simp only [fillCondition, Bool.or_eq_true, Bool.and_eq_true, decide_eq_true_eq,
    beq_iff_eq] at h
  omega

/-- Body of the loop over workers (lines 108-143) as far as the example slices
go: worker `i` appends its slice to `examples` and advances the shared cursor
`example`. The body never reads `i`. -/
def partitionStep {α : Type} (trainingExamples : List α)
    (examplesPerThread threadsWithExtraExamples : ℕ)
    (state : List (List α) × ℕ) (_i : ℕ) : Option (List (List α) × ℕ) :=
  match fillThreadExamples trainingExamples examplesPerThread threadsWithExtraExamples
      0 state.2 [] with
  | none => none
  | some (threadExamples, exampleIx) => some (state.1 ++ [threadExamples], exampleIx)

/-- Lines 103-143: the per-worker example slices `examples`, in worker order,
and the final value of the cursor `example`. `none` when `threadsN` is zero
(the divisions of lines 105-106 divide by zero) or a read leaves the batch. -/
def partitionExamples {α : Type} (trainingExamples : List α) (maxThreads : ℕ) :
    Option (List (List α) × ℕ) :=
  let threadsN := threadsN maxThreads trainingExamples.length
  if threadsN = 0 then none
  else
    let examplesPerThread := trainingExamples.length / threadsN
    let threadsWithExtraExamples := trainingExamples.length % threadsN
    (List.range threadsN).foldlM
      (partitionStep trainingExamples examplesPerThread threadsWithExtraExamples) ([], 0)

/-- Number of iterations the loop of line 131 still makes from counter `j`. -/
def fillCount (examplesPerThread threadsWithExtraExamples j : ℕ) : ℕ :=
  (examplesPerThread - j) +
    (if j ≤ examplesPerThread ∧ examplesPerThread < threadsWithExtraExamples then 1 else 0)

/-- One worker's slice, from counter zero: `examplesPerThread` examples, and one
more when `examplesPerThread < threadsWithExtraExamples`, whatever the worker. -/
def sliceSize (examplesPerThread threadsWithExtraExamples : ℕ) : ℕ :=
  examplesPerThread + (if examplesPerThread < threadsWithExtraExamples then 1 else 0)

/-- The `k` consecutive slices of `c` examples each that start at index `start`. -/
def slicesFrom {α : Type} (trainingExamples : List α) (c : ℕ) : ℕ → ℕ → List (List α)
  | 0, _ => []
  | k + 1, start =>
    (trainingExamples.drop start).take c :: slicesFrom trainingExamples c k (start + c)

/-- An `Eigen::MatrixXf` with `rows` rows and `cols` columns, its coefficients
taken as exact reals. -/
abbrev MatrixXf (rows cols : ℕ) := Matrix (Fin rows) (Fin cols) ℝ

/-- Eigen's `A.cwiseProduct(B)`: the coefficient-wise product. -/
def cwiseProduct {rows cols : ℕ} (A B : MatrixXf rows cols) : MatrixXf rows cols :=
  Matrix.of fun i j => A i j * B i j

/-- Eigen's `A.sum()`: the sum of all coefficients. -/
def matSum {rows cols : ℕ} (A : MatrixXf rows cols) : ℝ :=
  ∑ i, ∑ j, A i j

/-- Method `MiddleLayer::activationFunction` (lines 38-40), over the exact reals:
the value of `atan(x)/M_PI_2` before it is converted to the return type
`float`. For the `float` that is returned see `activationFunctionFloat`. -/
noncomputable def activationFunction (x : ℝ) : ℝ :=
  Real.arctan x / (Real.pi / 2)

/-- A `MiddleLayer` of `neurons` neurons fed by `previousLayerNeurons` values.
`connections`, `bias` and `output` are allocated by both constructors;
`weitghtedInput` is a pointer no constructor sets, allocated by `computeOutput`. -/
structure MiddleLayer (neurons previousLayerNeurons : ℕ) where
  connections : MatrixXf neurons previousLayerNeurons
  bias : MatrixXf neurons 1
  output : MatrixXf neurons 1
  weitghtedInput : Option (MatrixXf neurons 1)

namespace MiddleLayer

variable {neurons previousLayerNeurons : ℕ}

/-- The copy constructor (lines 14-18): copies `connections`, `bias` and
`output`; the copy has no `weitghtedInput`. -/
def copy (middleLayer : MiddleLayer neurons previousLayerNeurons) :
    MiddleLayer neurons previousLayerNeurons :=
  { connections := middleLayer.connections
    bias := middleLayer.bias
    output := middleLayer.output
    weitghtedInput := none }

/-- Method `MiddleLayer::computeOutput` (lines 20-36). `product` is
`connections * previousOutput`; `weitghtedInput` and `output` are both
allocated as copies of `product`, and then every coefficient `(j, i)` of
`output` is replaced by `activationFunction(output(j, i) + bias(j, i))`. -/
noncomputable def computeOutput (self : MiddleLayer neurons previousLayerNeurons)
    (previousOutput : MatrixXf previousLayerNeurons 1) :
    MiddleLayer neurons previousLayerNeurons :=
  let product : MatrixXf neurons 1 := self.connections * previousOutput
  { self with
    weitghtedInput := some product
    output := Matrix.of fun j i => activationFunction (product j i + self.bias j i) }

/-- Method `MiddleLayer::getOutput` (lines 42-44). -/
def getOutput (self : MiddleLayer neurons previousLayerNeurons) : MatrixXf neurons 1 :=
  self.output

/-- Method `MiddleLayer::getWeightedInput` (lines 46-48): the pointer, possibly null. -/
def getWeightedInput (self : MiddleLayer neurons previousLayerNeurons) :
    Option (MatrixXf neurons 1) :=
  self.weitghtedInput

/-- Method `MiddleLayer::getWeights` (lines 55-58). -/
def getWeights (self : MiddleLayer neurons previousLayerNeurons) :
    MatrixXf neurons previousLayerNeurons :=
  self.connections

/-- Method `MiddleLayer::adjustConnections` (lines 67-70): `*connections += *diff`. -/
def adjustConnections (self : MiddleLayer neurons previousLayerNeurons)
    (diff : MatrixXf neurons previousLayerNeurons) :
    MiddleLayer neurons previousLayerNeurons :=
  { self with connections := self.connections + diff }

/-- Method `MiddleLayer::adjustBiases` (lines 72-75): `*bias += *diff`. -/
def adjustBiases (self : MiddleLayer neurons previousLayerNeurons)
    (diff : MatrixXf neurons 1) : MiddleLayer neurons previousLayerNeurons :=
  { self with bias := self.bias + diff }

end MiddleLayer

/-- Modelled from the spec: the class `WordsInputLayer` (the encoder) is not
among the source files. Section 6 of the spec gives its interface:
`computeOutput(rawInput)` caches an output column of fixed height and
`getOutput()` returns the cached column. `encode` is the encoding it applies
and `output` the cached column. -/
structure WordsInputLayer (inputNeurons : ℕ) where
  encode : List ℤ → MatrixXf inputNeurons 1
  output : MatrixXf inputNeurons 1

namespace WordsInputLayer

variable {inputNeurons : ℕ}

/-- Modelled from the spec: `WordsInputLayer::computeOutput` replaces the cached
column by the encoding of the word. -/
def computeOutput (self : WordsInputLayer inputNeurons) (encodedWord : List ℤ) :
    WordsInputLayer inputNeurons :=
  { self with output := self.encode encodedWord }

/-- Modelled from the spec: `WordsInputLayer::getOutput` returns the cached column. -/
def getOutput (self : WordsInputLayer inputNeurons) : MatrixXf inputNeurons 1 :=
  self.output

end WordsInputLayer

/-- Modelled from the spec: the constant `LAYERS` of the missing header. Both
constructors of `WordAnalysisLevel` (lines 5-17) push exactly three layers and
the spec gives three as the length of the layer stack. -/
def LAYERS : ℕ := 3

/-- A `WordAnalysisLevel`: the encoder `inputLayer` and the vector `layers` of
`LAYERS` middle layers, `layers0`, `layers1`, `layers2` for `layers[0..2]`.
The shapes are those the constructor gives (lines 5-10): `n1`, `n2`, `n3` stand
for `NEURONS_1ST_LAYER`, `NEURONS_2ND_LAYER`, `NEURONS_OUTPUT_LAYER` and `nIn`
for `inputLayer->getOutput()->rows()`. -/
structure WordAnalysisLevel (nIn n1 n2 n3 : ℕ) where
  inputLayer : WordsInputLayer nIn
  layers0 : MiddleLayer n1 nIn
  layers1 : MiddleLayer n2 n1
  layers2 : MiddleLayer n3 n2

/-- One training example, `std::pair<std::vector<int>, Eigen::MatrixXf*>`:
the encoded word and the expected output column. -/
abbrev TrainingExample (n3 : ℕ) := List ℤ × MatrixXf n3 1

/-- The accumulators one worker thread writes: `(*weightsGradients)[0..2]`,
`(*biasesGradients)[0..2]` and `*totalCost`. -/
@[ext]
structure ThreadGradients (nIn n1 n2 n3 : ℕ) where
  weightsGradients0 : MatrixXf n1 nIn
  weightsGradients1 : MatrixXf n2 n1
  weightsGradients2 : MatrixXf n3 n2
  biasesGradients0 : MatrixXf n1 1
  biasesGradients1 : MatrixXf n2 1
  biasesGradients2 : MatrixXf n3 1
  totalCost : ℝ

/-- Function `float atanDeriverate(float f)` (lines 39-42): `1.0f / (1.0f + f * f)`. -/
noncomputable def atanDeriverate (f : ℝ) : ℝ :=
  1 / (1 + f * f)

/-- Function `void atanDeriverate(Eigen::MatrixXf& X)` (lines 44-49): every coefficient
is replaced by `atanDeriverate` of itself. -/
noncomputable def atanDeriverateX {rows cols : ℕ} (X : MatrixXf rows cols) :
    MatrixXf rows cols :=
  Matrix.of fun i j => atanDeriverate (X i j)

namespace WordAnalysisLevel

variable {nIn n1 n2 n3 : ℕ}

/-- The copy constructor (lines 12-17): a copy of the encoder and of each of
the three layers. -/
def copy (wordAnalysisLevel : WordAnalysisLevel nIn n1 n2 n3) :
    WordAnalysisLevel nIn n1 n2 n3 :=
  { inputLayer := wordAnalysisLevel.inputLayer
    layers0 := wordAnalysisLevel.layers0.copy
    layers1 := wordAnalysisLevel.layers1.copy
    layers2 := wordAnalysisLevel.layers2.copy }

/-- Method `WordAnalysisLevel::analyzeWord` (lines 30-37): the network after the call
and the returned `layers[LAYERS-1]->getOutput()`. The loop of line 33 runs for
`i = 1` and `i = 2`. -/
noncomputable def analyzeWord (self : WordAnalysisLevel nIn n1 n2 n3)
    (encodedWord : List ℤ) : WordAnalysisLevel nIn n1 n2 n3 × MatrixXf n3 1 :=
  let inputLayer := self.inputLayer.computeOutput encodedWord
  let layers0 := self.layers0.computeOutput inputLayer.getOutput
  let layers1 := self.layers1.computeOutput layers0.getOutput
  let layers2 := self.layers2.computeOutput layers1.getOutput
  ({ inputLayer := inputLayer, layers0 := layers0, layers1 := layers1, layers2 := layers2 },
    layers2.getOutput)

/-- Body of the loop over the examples in `calculateGradients` (lines 59-88)
on the local copy and the accumulators. The loop of line 71 is written out for
`i = 0, 1, 2`, that is for `layers[2]`, `layers[1]`, `layers[0]`; reading
through a null `getWeightedInput()` yields `none`. -/
noncomputable def calculateGradientsExample
    (state : WordAnalysisLevel nIn n1 n2 n3 × ThreadGradients nIn n1 n2 n3)
    (trainingExample : TrainingExample n3) :
    Option (WordAnalysisLevel nIn n1 n2 n3 × ThreadGradients nIn n1 n2 n3) := do
  let analyzed := state.1.analyzeWord trainingExample.1
  let localCopy := analyzed.1
  let output := analyzed.2
  let gradient := output - trainingExample.2
  let input ← localCopy.layers2.getWeightedInput
  let input := atanDeriverateX input
  let delta2 := cwiseProduct gradient input
  let totalCost := state.2.totalCost + matSum (cwiseProduct gradient gradient)
  -- i = 0
  let prevLevelOutput := localCopy.layers1.getOutput
  let weightsGradients2 := state.2.weightsGradients2 + delta2 * prevLevelOutput.transpose
  let biasesGradients2 := state.2.biasesGradients2 + delta2
  let delta1 := localCopy.layers2.getWeights.transpose * delta2
  let inputGradient ← localCopy.layers1.getWeightedInput
  let inputGradient := atanDeriverateX inputGradient
  let delta1 := cwiseProduct delta1 inputGradient
  -- i = 1
  let prevLevelOutput := localCopy.layers0.getOutput
  let weightsGradients1 := state.2.weightsGradients1 + delta1 * prevLevelOutput.transpose
  let biasesGradients1 := state.2.biasesGradients1 + delta1
  let delta0 := localCopy.layers1.getWeights.transpose * delta1
  let inputGradient ← localCopy.layers0.getWeightedInput
  let inputGradient := atanDeriverateX inputGradient
  let delta0 := cwiseProduct delta0 inputGradient
  -- i = 2 = LAYERS - 1
  let prevLevelOutput := localCopy.inputLayer.getOutput
  let weightsGradients0 := state.2.weightsGradients0 + delta0 * prevLevelOutput.transpose
  let biasesGradients0 := state.2.biasesGradients0 + delta0
  pure (localCopy,
    { weightsGradients0 := weightsGradients0
      weightsGradients1 := weightsGradients1
      weightsGradients2 := weightsGradients2
      biasesGradients0 := biasesGradients0
      biasesGradients1 := biasesGradients1
      biasesGradients2 := biasesGradients2
      totalCost := totalCost })

/-- Method `WordAnalysisLevel::calculateGradients` (lines 51-89): the accumulators
after the call, from their values `gradients` before it. The network is
copied once (line 57) and the copy serves every example in turn. -/
noncomputable def calculateGradients (network : WordAnalysisLevel nIn n1 n2 n3)
    (trainingExamples : List (TrainingExample n3))
    (gradients : ThreadGradients nIn n1 n2 n3) : Option (ThreadGradients nIn n1 n2 n3) :=
  (trainingExamples.foldlM calculateGradientsExample (network.copy, gradients)).map Prod.snd

end WordAnalysisLevel

/-- The accumulators a worker starts from (lines 111-126 and 134): every
gradient matrix after `setConstant(0)`, the cost `0`. -/
def ThreadGradients.zero (nIn n1 n2 n3 : ℕ) : ThreadGradients nIn n1 n2 n3 :=
  { weightsGradients0 := 0
    weightsGradients1 := 0
    weightsGradients2 := 0
    biasesGradients0 := 0
    biasesGradients1 := 0
    biasesGradients2 := 0
    totalCost := 0 }

namespace WordAnalysisLevel

variable {nIn n1 n2 n3 : ℕ}

/-- The worker threads of lines 141-147, one per slice, each started on the
live network with zeroed accumulators; the results in worker order. -/
noncomputable def runThreads (self : WordAnalysisLevel nIn n1 n2 n3) :
    List (List (TrainingExample n3)) → Option (List (ThreadGradients nIn n1 n2 n3))
  | [] => some []
  | threadExamples :: examples => do
    let threadGradients ← calculateGradients self threadExamples (ThreadGradients.zero nIn n1 n2 n3)
    let rest ← runThreads self examples
    pure (threadGradients :: rest)

/-- Lines 149-196 of `backpropagate`, what follows the join: the worker costs
are summed, every layer's weights and then every layer's bias are adjusted by
the summed worker gradients times `-learningSpeed / (float)trainingExamples.size()`,
and `totalCost / (2 * trainingExamples.size())` is returned. `size` is
`trainingExamples.size()` and `gradients` holds the workers' accumulators. -/
noncomputable def reduceAndAdjust (self : WordAnalysisLevel nIn n1 n2 n3) (size : ℕ)
    (learningSpeed : ℝ) (gradients : List (ThreadGradients nIn n1 n2 n3)) :
    WordAnalysisLevel nIn n1 n2 n3 × ℝ :=
  -- lines 149-150
  let totalCost := gradients.foldl (fun totalCost e => totalCost + e.totalCost) 0
  -- lines 155-165
  let factor : ℝ := -learningSpeed / (size : ℝ)
  let total0 := factor • gradients.foldl (fun total e => total + e.weightsGradients0) 0
  let total1 := factor • gradients.foldl (fun total e => total + e.weightsGradients1) 0
  let total2 := factor • gradients.foldl (fun total e => total + e.weightsGradients2) 0
  let layers0 := self.layers0.adjustConnections total0
  let layers1 := self.layers1.adjustConnections total1
  let layers2 := self.layers2.adjustConnections total2
  -- lines 167-177
  let total0 := factor • gradients.foldl (fun total e => total + e.biasesGradients0) 0
  let total1 := factor • gradients.foldl (fun total e => total + e.biasesGradients1) 0
  let total2 := factor • gradients.foldl (fun total e => total + e.biasesGradients2) 0
  let layers0 := layers0.adjustBiases total0
  let layers1 := layers1.adjustBiases total1
  let layers2 := layers2.adjustBiases total2
  -- line 196
  ({ self with layers0 := layers0, layers1 := layers1, layers2 := layers2 },
    totalCost / ((2 * size : ℕ) : ℝ))

/-- Method `WordAnalysisLevel::backpropagate` (lines 91-197): the network after the
call and the returned cost. Lines 103-143 build the slices and start one
thread per slice, lines 146-147 join them, `reduceAndAdjust` is the rest. -/
noncomputable def backpropagate (self : WordAnalysisLevel nIn n1 n2 n3)
    (trainingExamples : List (TrainingExample n3)) (learningSpeed : ℝ) (maxThreads : ℕ) :
    Option (WordAnalysisLevel nIn n1 n2 n3 × ℝ) := do
  let examples ← partitionExamples trainingExamples maxThreads
  let gradients ← runThreads self examples.1
  pure (reduceAndAdjust self trainingExamples.length learningSpeed gradients)

end WordAnalysisLevel

namespace ThreadGradients

variable {nIn n1 n2 n3 : ℕ}

/-- Accumulators add field by field. -/
instance : Add (ThreadGradients nIn n1 n2 n3) where
  add a b :=
    { weightsGradients0 := a.weightsGradients0 + b.weightsGradients0
      weightsGradients1 := a.weightsGradients1 + b.weightsGradients1
      weightsGradients2 := a.weightsGradients2 + b.weightsGradients2
      biasesGradients0 := a.biasesGradients0 + b.biasesGradients0
      biasesGradients1 := a.biasesGradients1 + b.biasesGradients1
      biasesGradients2 := a.biasesGradients2 + b.biasesGradients2
      totalCost := a.totalCost + b.totalCost }

instance : Zero (ThreadGradients nIn n1 n2 n3) where
  zero := ThreadGradients.zero nIn n1 n2 n3

instance : AddCommMonoid (ThreadGradients nIn n1 n2 n3) where
  add_assoc a b c :=
    ThreadGradients.ext
      (add_assoc a.weightsGradients0 b.weightsGradients0 c.weightsGradients0)
      (add_assoc a.weightsGradients1 b.weightsGradients1 c.weightsGradients1)
      (add_assoc a.weightsGradients2 b.weightsGradients2 c.weightsGradients2)
      (add_assoc a.biasesGradients0 b.biasesGradients0 c.biasesGradients0)
      (add_assoc a.biasesGradients1 b.biasesGradients1 c.biasesGradients1)
      (add_assoc a.biasesGradients2 b.biasesGradients2 c.biasesGradients2)
      (add_assoc a.totalCost b.totalCost c.totalCost)
  zero_add a :=
    ThreadGradients.ext (zero_add a.weightsGradients0) (zero_add a.weightsGradients1)
      (zero_add a.weightsGradients2) (zero_add a.biasesGradients0)
      (zero_add a.biasesGradients1) (zero_add a.biasesGradients2) (zero_add a.totalCost)
  add_zero a :=
    ThreadGradients.ext (add_zero a.weightsGradients0) (add_zero a.weightsGradients1)
      (add_zero a.weightsGradients2) (add_zero a.biasesGradients0)
      (add_zero a.biasesGradients1) (add_zero a.biasesGradients2) (add_zero a.totalCost)
  add_comm a b :=
    ThreadGradients.ext
      (add_comm a.weightsGradients0 b.weightsGradients0)
      (add_comm a.weightsGradients1 b.weightsGradients1)
      (add_comm a.weightsGradients2 b.weightsGradients2)
      (add_comm a.biasesGradients0 b.biasesGradients0)
      (add_comm a.biasesGradients1 b.biasesGradients1)
      (add_comm a.biasesGradients2 b.biasesGradients2)
      (add_comm a.totalCost b.totalCost)
  nsmul := nsmulRec

end ThreadGradients

/-- The parameters of a network: what the forward caches are computed from. -/
@[ext]
structure NetworkParameters (nIn n1 n2 n3 : ℕ) where
  encode : List ℤ → MatrixXf nIn 1
  connections0 : MatrixXf n1 nIn
  bias0 : MatrixXf n1 1
  connections1 : MatrixXf n2 n1
  bias1 : MatrixXf n2 1
  connections2 : MatrixXf n3 n2
  bias2 : MatrixXf n3 1

/-- The parameters a network holds. -/
def WordAnalysisLevel.parameters {nIn n1 n2 n3 : ℕ} (self : WordAnalysisLevel nIn n1 n2 n3) :
    NetworkParameters nIn n1 n2 n3 :=
  { encode := self.inputLayer.encode
    connections0 := self.layers0.connections
    bias0 := self.layers0.bias
    connections1 := self.layers1.connections
    bias1 := self.layers1.bias
    connections2 := self.layers2.connections
    bias2 := self.layers2.bias }

namespace NetworkParameters

variable {nIn n1 n2 n3 : ℕ}

/-- The column `analyzeWord` returns, from the parameters alone. -/
noncomputable def forward (p : NetworkParameters nIn n1 n2 n3) (encodedWord : List ℤ) :
    MatrixXf n3 1 :=
  let x := p.encode encodedWord
  let a0 : MatrixXf n1 1 :=
    Matrix.of fun j i => activationFunction ((p.connections0 * x) j i + p.bias0 j i)
  let a1 : MatrixXf n2 1 :=
    Matrix.of fun j i => activationFunction ((p.connections1 * a0) j i + p.bias1 j i)
  Matrix.of fun j i => activationFunction ((p.connections2 * a1) j i + p.bias2 j i)

/-- What the loop body of `calculateGradients` adds to the accumulators for one
example, from the parameters alone. -/
noncomputable def exampleGradients (p : NetworkParameters nIn n1 n2 n3)
    (trainingExample : TrainingExample n3) : ThreadGradients nIn n1 n2 n3 :=
  let x := p.encode trainingExample.1
  let z0 : MatrixXf n1 1 := p.connections0 * x
  let a0 : MatrixXf n1 1 := Matrix.of fun j i => activationFunction (z0 j i + p.bias0 j i)
  let z1 : MatrixXf n2 1 := p.connections1 * a0
  let a1 : MatrixXf n2 1 := Matrix.of fun j i => activationFunction (z1 j i + p.bias1 j i)
  let z2 : MatrixXf n3 1 := p.connections2 * a1
  let a2 : MatrixXf n3 1 := Matrix.of fun j i => activationFunction (z2 j i + p.bias2 j i)
  let gradient := a2 - trainingExample.2
  let delta2 := cwiseProduct gradient (atanDeriverateX z2)
  let delta1 := cwiseProduct (p.connections2.transpose * delta2) (atanDeriverateX z1)
  let delta0 := cwiseProduct (p.connections1.transpose * delta1) (atanDeriverateX z0)
  { weightsGradients0 := delta0 * x.transpose
    weightsGradients1 := delta1 * a0.transpose
    weightsGradients2 := delta2 * a1.transpose
    biasesGradients0 := delta0
    biasesGradients1 := delta1
    biasesGradients2 := delta2
    totalCost := matSum (cwiseProduct gradient gradient) }

end NetworkParameters

/-- A layer of one neuron with weight `1` and bias `-1`. -/
def shiftedLayer : MiddleLayer 1 1 :=
  { connections := !![1]
    bias := !![-1]
    output := !![0]
    weitghtedInput := none }

/-- A network of one neuron per layer: every weight is `0` but the last
layer's, which is `w`; the middle layer has bias `1`, the others bias `0`; the
encoder maps every word to `[0]`. -/
def scalarNetwork (w : ℝ) : WordAnalysisLevel 1 1 1 1 :=
  { inputLayer := { encode := fun _ => !![0], output := !![0] }
    layers0 := { connections := !![0], bias := !![0], output := !![0], weitghtedInput := none }
    layers1 := { connections := !![0], bias := !![1], output := !![0], weitghtedInput := none }
    layers2 := { connections := !![w], bias := !![0], output := !![0], weitghtedInput := none } }

/-- The example with the empty word and the target `[1]`. -/
def unitExample : TrainingExample 1 := ([], !![1])

/-- The cost of one example as the specification states it: one half times the sum of
the squared entries of `forward(input) - target`, `forward` being `analyzeWord`. -/
noncomputable def exampleCost {nIn n1 n2 n3 : ℕ} (network : WordAnalysisLevel nIn n1 n2 n3)
    (trainingExample : TrainingExample n3) : ℝ :=
  1 / 2 * matSum (cwiseProduct
    ((network.analyzeWord trainingExample.1).2 - trainingExample.2)
    ((network.analyzeWord trainingExample.1).2 - trainingExample.2))

/-- Three examples with the target `[1]`. -/
def threeExamples : List (TrainingExample 1) :=
  [([1], !![1]), ([2], !![1]), ([3], !![1])]

/-- The cost the specification gives for a batch: `1 / (2 * N)` times the sum over
all examples of the batch of the sum of the squared entries of
`forward(input) - target`, `forward` being `analyzeWord` on the given network. -/
noncomputable def meanSquaredCost {nIn n1 n2 n3 : ℕ} (network : WordAnalysisLevel nIn n1 n2 n3)
    (trainingExamples : List (TrainingExample n3)) : ℝ :=
  1 / (2 * (trainingExamples.length : ℝ)) *
    (trainingExamples.map fun trainingExample =>
      matSum (cwiseProduct
        ((network.analyzeWord trainingExample.1).2 - trainingExample.2)
        ((network.analyzeWord trainingExample.1).2 - trainingExample.2))).sum

/-- A layer of two neurons with the identity as weights and bias zero. -/
def identityLayer : MiddleLayer 2 2 :=
  { connections := !![1, 0; 0, 1]
    bias := !![0; 0]
    output := !![0; 0]
    weitghtedInput := none }

/-- An `Eigen::MatrixXf` whose shape is known only at run time: `rows()`,
`cols()` and the coefficients. -/
structure DynMatrix where
  rows : ℕ
  cols : ℕ
  coeff : MatrixXf rows cols

namespace DynMatrix

/-- A matrix of a fixed shape as a run-time value. -/
def ofMatrix {rows cols : ℕ} (A : MatrixXf rows cols) : DynMatrix :=
  { rows := rows, cols := cols, coeff := A }

/-- A run-time matrix of `rows` rows and `cols` columns at that fixed shape. -/
def toMatrix (A : DynMatrix) (rows cols : ℕ) (hr : A.rows = rows) (hc : A.cols = cols) :
    MatrixXf rows cols :=
  Matrix.of fun i j => A.coeff (Fin.cast hr.symm i) (Fin.cast hc.symm j)

end DynMatrix

namespace MiddleLayer

variable {neurons previousLayerNeurons : ℕ}

/-- Method `MiddleLayer::getKnownConnections` (lines 83-86):
`{ *this->connections, *this->bias }`. -/
def getKnownConnections (self : MiddleLayer neurons previousLayerNeurons) :
    DynMatrix × DynMatrix :=
  (DynMatrix.ofMatrix self.connections, DynMatrix.ofMatrix self.bias)

/-- Method `MiddleLayer::initKnownConnections` (lines 77-81):
`*this->connections = connections.first; *this->bias = connections.second;`.
An Eigen assignment gives the destination the shape of the source; a pair whose
shapes are not those of the layer would leave the shapes the constructor
fixed, and yields `none` here. -/
def initKnownConnections (self : MiddleLayer neurons previousLayerNeurons)
    (connections : DynMatrix × DynMatrix) : Option (MiddleLayer neurons previousLayerNeurons) :=
  if h : (connections.1.rows = neurons ∧ connections.1.cols = previousLayerNeurons) ∧
      (connections.2.rows = neurons ∧ connections.2.cols = 1) then
    some { self with
      connections := connections.1.toMatrix neurons previousLayerNeurons h.1.1 h.1.2
      bias := connections.2.toMatrix neurons 1 h.2.1 h.2.2 }
  else none

end MiddleLayer

namespace WordAnalysisLevel

variable {nIn n1 n2 n3 : ℕ}

/-- Method `WordAnalysisLevel::getKnownConnections` (lines 206-214): the pairs
of `layers[0]`, `layers[1]`, `layers[2]`, pushed in that order. -/
def getKnownConnections (self : WordAnalysisLevel nIn n1 n2 n3) :
    List (DynMatrix × DynMatrix) :=
  [self.layers0.getKnownConnections, self.layers1.getKnownConnections,
    self.layers2.getKnownConnections]

/-- Body of the loop of lines 202-203 for the index `i`:
`this->layers[i]->initKnownConnections(connections[i])`. There is no
`layers[i]` for `i ≥ 3`. -/
def initKnownConnectionsAt (self : WordAnalysisLevel nIn n1 n2 n3) (i : ℕ)
    (connection : DynMatrix × DynMatrix) : Option (WordAnalysisLevel nIn n1 n2 n3) :=
  match i with
  | 0 => (self.layers0.initKnownConnections connection).map fun layer =>
      { self with layers0 := layer }
  | 1 => (self.layers1.initKnownConnections connection).map fun layer =>
      { self with layers1 := layer }
  | 2 => (self.layers2.initKnownConnections connection).map fun layer =>
      { self with layers2 := layer }
  | _ => none

/-- The loop of lines 202-203 from the index `i` on, over the pairs that are
left. -/
def initKnownConnectionsFrom :
    ℕ → List (DynMatrix × DynMatrix) → WordAnalysisLevel nIn n1 n2 n3 →
      Option (WordAnalysisLevel nIn n1 n2 n3)
  | _, [], self => some self
  | i, connection :: rest, self =>
    match self.initKnownConnectionsAt i connection with
    | none => none
    | some next => initKnownConnectionsFrom (i + 1) rest next

/-- Method `WordAnalysisLevel::initKnownConnections` (lines 200-204). -/
def initKnownConnections (self : WordAnalysisLevel nIn n1 n2 n3)
    (connections : List (DynMatrix × DynMatrix)) : Option (WordAnalysisLevel nIn n1 n2 n3) :=
  initKnownConnectionsFrom 0 connections self

end WordAnalysisLevel

namespace DynMatrix

/-- Eigen's product `A * B` of run-time matrices: defined when `A.cols()` is
`B.rows()`, and then of `A.rows()` rows and `B.cols()` columns. -/
def product (A B : DynMatrix) : Option DynMatrix :=
  if h : A.cols = B.rows then
    some
      { rows := A.rows
        cols := B.cols
        coeff := A.coeff * Matrix.of fun k j => B.coeff (Fin.cast h k) j }
  else none

/-- The read `A(i, j)` of a coefficient: defined for `i < A.rows()` and
`j < A.cols()`. -/
def coeffAt (A : DynMatrix) (i j : ℕ) : Option ℝ :=
  if h : i < A.rows ∧ j < A.cols then some (A.coeff ⟨i, h.1⟩ ⟨j, h.2⟩) else none

end DynMatrix

/-- A `MiddleLayer` with the shapes of its matrices left to run time, as
`computeOutput` finds them. -/
structure DynMiddleLayer where
  connections : DynMatrix
  bias : DynMatrix
  output : DynMatrix
  weitghtedInput : Option DynMatrix

/-- Method `MiddleLayer::computeOutput` (lines 20-36) on run-time shapes.
`weitghtedInput` and `output` take the shape of `product`; the loops of lines
31-32 run over the columns `i` and rows `j` of `output` and read `bias(j, i)`
for each of them, and the call has a result when the product is defined and
all those reads are inside `bias`. -/
noncomputable def DynMiddleLayer.computeOutput (self : DynMiddleLayer)
    (previousOutput : DynMatrix) : Option DynMiddleLayer :=
  match self.connections.product previousOutput with
  | none => none
  | some product =>
    if ∀ (j : Fin product.rows) (i : Fin product.cols),
        (j : ℕ) < self.bias.rows ∧ (i : ℕ) < self.bias.cols then
      some
        { self with
          weitghtedInput := some product
          output :=
            { rows := product.rows
              cols := product.cols
              coeff := Matrix.of fun j i =>
                activationFunction (product.coeff j i + (self.bias.coeffAt j i).getD 0) } }
    else none

/-- A layer of fixed shapes with its shapes left to run time. -/
def MiddleLayer.toDyn {neurons previousLayerNeurons : ℕ}
    (self : MiddleLayer neurons previousLayerNeurons) : DynMiddleLayer :=
  { connections := DynMatrix.ofMatrix self.connections
    bias := DynMatrix.ofMatrix self.bias
    output := DynMatrix.ofMatrix self.output
    weitghtedInput := self.weitghtedInput.map DynMatrix.ofMatrix }

/-- The objects a call of `calculateGradients` can reach: `*network`, the
network the caller handed over (the live network when `backpropagate` starts
the worker), the worker's `localCopy` of it, and the accumulators. -/
structure WorkerMemory (nIn n1 n2 n3 : ℕ) where
  network : WordAnalysisLevel nIn n1 n2 n3
  localCopy : WordAnalysisLevel nIn n1 n2 n3
  gradients : ThreadGradients nIn n1 n2 n3

namespace WordAnalysisLevel

variable {nIn n1 n2 n3 : ℕ}

/-- Body of the loop over the examples in `calculateGradients` (lines 59-88) on
the worker's memory: every statement of it reads and writes `localCopy` and the
accumulators, none names `network`. -/
noncomputable def calculateGradientsExampleMemory (memory : WorkerMemory nIn n1 n2 n3)
    (trainingExample : TrainingExample n3) : Option (WorkerMemory nIn n1 n2 n3) :=
  (calculateGradientsExample (memory.localCopy, memory.gradients) trainingExample).map
    fun state => { memory with localCopy := state.1, gradients := state.2 }

/-- Method `WordAnalysisLevel::calculateGradients` (lines 51-89) on the worker's
memory: line 57 builds `localCopy` from `*network` through the copy
constructor, which takes its argument by `const` reference, and the loop
follows. The memory when the call returns. -/
noncomputable def calculateGradientsMemory (network : WordAnalysisLevel nIn n1 n2 n3)
    (trainingExamples : List (TrainingExample n3))
    (gradients : ThreadGradients nIn n1 n2 n3) : Option (WorkerMemory nIn n1 n2 n3) :=
  trainingExamples.foldlM calculateGradientsExampleMemory
    { network := network, localCopy := network.copy, gradients := gradients }

end WordAnalysisLevel

/-- Rounding of a real to the nearest integer, ties to the even one. -/
noncomputable def roundHalfEven (t : ℝ) : ℤ :=
  if Int.fract t < 1 / 2 then ⌊t⌋
  else if 1 / 2 < Int.fract t then ⌊t⌋ + 1
  else if Even ⌊t⌋ then ⌊t⌋ else ⌊t⌋ + 1

/-- The exponent of the binary32 binade of `x`: the integer part of the binary
logarithm of `|x|`, and `-126` throughout the subnormal range. -/
noncomputable def float32Exponent (x : ℝ) : ℤ :=
  max (Int.log 2 |x|) (-126)

/-- Conversion of a value to `float` (IEEE 754 binary32, round to nearest, ties
to even): the multiple of the spacing `2 ^ (exponent - 23)` of the binade of
`x` that is nearest to `x`. Overflow to infinity is not represented. -/
noncomputable def roundFloat32 (x : ℝ) : ℝ :=
  (roundHalfEven (x / 2 ^ (float32Exponent x - 23)) : ℝ) * 2 ^ (float32Exponent x - 23)

/-- The `float` that `MiddleLayer::activationFunction` (lines 38-40) returns on
`x`: the value of `atan(x)/M_PI_2`, the library's `atan` and the division taken
exact, converted to the return type `float`. -/
noncomputable def activationFunctionFloat (x : ℝ) : ℝ :=
  roundFloat32 (activationFunction x)

/-! ## Theorems -/

theorem fillThreadExamples_eq {α : Type} (trainingExamples : List α) (q r : ℕ) :
    ∀ (n j exampleIx : ℕ) (threadExamples : List α), q + 1 - j = n →
      fillThreadExamples trainingExamples q r j exampleIx threadExamples =
        if fillCount q r j = 0 ∨ exampleIx + fillCount q r j ≤ trainingExamples.length then
          some (threadExamples ++ (trainingExamples.drop exampleIx).take (fillCount q r j),
            exampleIx + fillCount q r j)
        else none := by
  intro n
  induction n with
  | zero =>
    intro j ex acc hn
    have hj : q < j := by omega
    rw [fillThreadExamples]
    have hc : ¬ fillCondition q r j = true := by
      simp only [fillCondition, Bool.or_eq_true, Bool.and_eq_true, decide_eq_true_eq,
        beq_iff_eq]
      omega
    have h0 : fillCount q r j = 0 := by
      unfold fillCount
      rw [if_neg (by omega)]
      omega
    simp [hc, h0]
  | succ n ih =>
    intro j ex acc hn
    rw [fillThreadExamples]
    by_cases hc : fillCondition q r j = true
    · have hc2 := hc
      simp only [fillCondition, Bool.or_eq_true, Bool.and_eq_true, decide_eq_true_eq,
        beq_iff_eq] at hc2
      have hcnt : fillCount q r j = fillCount q r (j + 1) + 1 := by
        unfold fillCount
        by_cases hq : q < r
        · by_cases hj : j < q
          · rw [if_pos ⟨by omega, hq⟩, if_pos ⟨by omega, hq⟩]
            omega
          · rw [if_pos ⟨by omega, hq⟩, if_neg (by omega)]
            omega
        · rw [if_neg (by omega), if_neg (by omega)]
          omega
      rw [dif_pos hc]
      by_cases hex : ex < trainingExamples.length
      · rw [List.getElem?_eq_getElem hex]
        simp only []
        rw [ih (j + 1) (ex + 1) _ (by omega), hcnt]
        have hdrop : (List.drop ex trainingExamples).take (fillCount q r (j + 1) + 1)
            = trainingExamples[ex] ::
                (List.drop (ex + 1) trainingExamples).take (fillCount q r (j + 1)) := by
          rw [List.drop_eq_getElem_cons hex, List.take_succ_cons]
        rw [hdrop]
        by_cases hle : ex + 1 + fillCount q r (j + 1) ≤ trainingExamples.length
        · rw [if_pos (Or.inr hle), if_pos (Or.inr (by omega))]
          simp [List.append_assoc, Nat.add_assoc, Nat.add_comm 1]
        · by_cases hz : fillCount q r (j + 1) = 0
          · rw [if_pos (Or.inl hz), if_pos (Or.inr (by omega))]
            simp [hz, List.append_assoc, Nat.add_assoc, Nat.add_comm 1]
          · rw [if_neg (by omega), if_neg (by omega)]
      · rw [List.getElem?_eq_none (by omega)]
        simp only []
        rw [if_neg (by omega)]
    · have hc2 := hc
      simp only [fillCondition, Bool.or_eq_true, Bool.and_eq_true, decide_eq_true_eq,
        beq_iff_eq, not_or, not_and] at hc2
      have h0 : fillCount q r j = 0 := by
        unfold fillCount
        rw [if_neg (by omega)]
        omega
      simp [hc, h0]

theorem fillCount_zero (q r : ℕ) : fillCount q r 0 = sliceSize q r := by
  simp [fillCount, sliceSize]

theorem partitionStep_eq {α : Type} (trainingExamples : List α) (q r : ℕ)
    (state : List (List α) × ℕ) (i : ℕ) :
    partitionStep trainingExamples q r state i =
      if sliceSize q r = 0 ∨ state.2 + sliceSize q r ≤ trainingExamples.length then
        some (state.1 ++ [(trainingExamples.drop state.2).take (sliceSize q r)],
          state.2 + sliceSize q r)
      else none := by
  unfold partitionStep
  rw [fillThreadExamples_eq trainingExamples q r (q + 1) 0 state.2 [] rfl, fillCount_zero]
  by_cases h : sliceSize q r = 0 ∨ state.2 + sliceSize q r ≤ trainingExamples.length
  · simp [h]
  · simp [h]

theorem foldlM_partitionStep {α : Type} (trainingExamples : List α) (q r : ℕ) :
    ∀ (l : List ℕ) (state : List (List α) × ℕ),
      l.foldlM (partitionStep trainingExamples q r) state =
        if l.length = 0 ∨ sliceSize q r = 0 ∨
            state.2 + l.length * sliceSize q r ≤ trainingExamples.length then
          some (state.1 ++ slicesFrom trainingExamples (sliceSize q r) l.length state.2,
            state.2 + l.length * sliceSize q r)
        else none := by
  intro l
  induction l with
  | nil => intro state; simp [slicesFrom]
  | cons i l ih =>
    intro state
    rw [List.foldlM_cons, partitionStep_eq]
    by_cases hc : sliceSize q r = 0
    · rw [if_pos (Or.inl hc)]
      simp only [Option.some_bind, Option.bind_eq_bind]
      rw [ih, if_pos (Or.inr (Or.inl hc)), if_pos (Or.inr (Or.inl hc))]
      simp [slicesFrom, hc, List.append_assoc]
    · by_cases h1 : state.2 + sliceSize q r ≤ trainingExamples.length
      · rw [if_pos (Or.inr h1)]
        simp only [Option.some_bind, Option.bind_eq_bind]
        rw [ih]
        have hm : (l.length + 1) * sliceSize q r = sliceSize q r + l.length * sliceSize q r := by
          rw [Nat.add_mul, Nat.one_mul, Nat.add_comm]
        simp only [List.length_cons, hm]
        by_cases h2 : l.length = 0 ∨ sliceSize q r = 0 ∨
            state.2 + sliceSize q r + l.length * sliceSize q r ≤ trainingExamples.length
        · rw [if_pos h2]
          have h3 : state.2 + (sliceSize q r + l.length * sliceSize q r)
              ≤ trainingExamples.length := by
            rcases h2 with h2 | h2 | h2
            · rw [h2]; omega
            · exact absurd h2 hc
            · omega
          rw [if_pos (Or.inr (Or.inr h3))]
          simp [slicesFrom, List.append_assoc, Nat.add_assoc]
        · rw [if_neg h2]
          have h3 : ¬ (l.length + 1 = 0 ∨ sliceSize q r = 0 ∨
              state.2 + (sliceSize q r + l.length * sliceSize q r)
                ≤ trainingExamples.length) := by
            intro h
            apply h2
            rcases h with h | h | h
            · omega
            · exact absurd h hc
            · exact Or.inr (Or.inr (by omega))
          rw [if_neg h3]
      · rw [if_neg (by tauto)]
        simp only [Option.none_bind, Option.bind_eq_bind]
        have hm : (l.length + 1) * sliceSize q r = sliceSize q r + l.length * sliceSize q r := by
          rw [Nat.add_mul, Nat.one_mul, Nat.add_comm]
        have h3 : ¬ ((i :: l).length = 0 ∨ sliceSize q r = 0 ∨
            state.2 + (i :: l).length * sliceSize q r ≤ trainingExamples.length) := by
          simp only [List.length_cons, hm]
          intro h
          rcases h with h | h | h
          · omega
          · exact absurd h hc
          · omega
        rw [if_neg h3]

/-- Closed form of the partition loop for a non-empty batch and at least one
thread: no result when `examplesPerThread < threadsWithExtraExamples` (a read
leaves the batch), and otherwise `threadsN` slices of `examplesPerThread`
examples each. -/
theorem partitionExamples_eq {α : Type} (trainingExamples : List α) (maxThreads : ℕ)
    (hN : trainingExamples ≠ []) (hW : 1 ≤ maxThreads) :
    partitionExamples trainingExamples maxThreads =
      if trainingExamples.length / threadsN maxThreads trainingExamples.length
          < trainingExamples.length % threadsN maxThreads trainingExamples.length then none
      else some
        (slicesFrom trainingExamples
            (trainingExamples.length / threadsN maxThreads trainingExamples.length)
            (threadsN maxThreads trainingExamples.length) 0,
          threadsN maxThreads trainingExamples.length *
            (trainingExamples.length / threadsN maxThreads trainingExamples.length)) := by
  have hlen : 1 ≤ trainingExamples.length := by
    cases trainingExamples with
    | nil => exact absurd rfl hN
    | cons a l => simp
  have hT1 : 1 ≤ threadsN maxThreads trainingExamples.length := by
    unfold threadsN; split <;> omega
  have hT2 : threadsN maxThreads trainingExamples.length ≤ trainingExamples.length := by
    unfold threadsN; split <;> omega
  unfold partitionExamples
  simp only []
  rw [if_neg (by omega), foldlM_partitionStep]
  generalize threadsN maxThreads trainingExamples.length = W at hT1 hT2 ⊢
  generalize hNe : trainingExamples.length = N at hlen hT2 ⊢
  have hdm : W * (N / W) + N % W = N := Nat.div_add_mod N W
  have hmod : N % W < W := Nat.mod_lt _ (by omega)
  have hq : 1 ≤ N / W := (Nat.one_le_div_iff (by omega)).2 hT2
  simp only [List.length_range, zero_add]
  by_cases hlt : N / W < N % W
  · have hs : sliceSize (N / W) (N % W) = N / W + 1 := by simp [sliceSize, hlt]
    rw [if_pos hlt, hs, Nat.mul_succ]
    rw [if_neg (by omega)]
  · have hs : sliceSize (N / W) (N % W) = N / W := by simp [sliceSize, hlt]
    rw [if_neg hlt, hs]
    rw [if_pos (Or.inr (Or.inr (by omega)))]
    simp

theorem slicesFrom_length {α : Type} (trainingExamples : List α) (c : ℕ) :
    ∀ k start : ℕ, (slicesFrom trainingExamples c k start).length = k := by
  intro k
  induction k with
  | zero => intro start; rfl
  | succ k ih => intro start; simp [slicesFrom, ih]

theorem slicesFrom_flatten {α : Type} (trainingExamples : List α) (c : ℕ) :
    ∀ k start : ℕ,
      (slicesFrom trainingExamples c k start).flatten =
        (trainingExamples.drop start).take (k * c) := by
  intro k
  induction k with
  | zero => intro start; simp [slicesFrom]
  | succ k ih =>
    intro start
    rw [slicesFrom, List.flatten_cons, ih, Nat.succ_mul, Nat.add_comm (k * c) c,
      List.take_add, List.drop_drop]

theorem slicesFrom_mem_length {α : Type} (trainingExamples : List α) (c : ℕ) :
    ∀ k start : ℕ, start + k * c ≤ trainingExamples.length →
      ∀ threadExamples ∈ slicesFrom trainingExamples c k start, threadExamples.length = c := by
  intro k
  induction k with
  | zero => intro start _ t ht; simp [slicesFrom] at ht
  | succ k ih =>
    intro start hle t ht
    rw [Nat.succ_mul] at hle
    rw [slicesFrom, List.mem_cons] at ht
    rcases ht with ht | ht
    · rw [ht, List.length_take, List.length_drop]
      omega
    · exact ih (start + c) (by omega) t ht

/-- Whenever the partition loop has a result on a non-empty batch with at least
one thread: there are `threadsN` slices, each of `examplesPerThread` examples;
concatenated they are the first `threadsN * examplesPerThread` examples of the
batch, and that product is the final cursor. -/
theorem partitionExamples_some {α : Type} (trainingExamples : List α) (maxThreads : ℕ)
    (hN : trainingExamples ≠ []) (hW : 1 ≤ maxThreads)
    (examples : List (List α)) (cursor : ℕ)
    (h : partitionExamples trainingExamples maxThreads = some (examples, cursor)) :
    examples.length = threadsN maxThreads trainingExamples.length ∧
    (∀ threadExamples ∈ examples, threadExamples.length =
      trainingExamples.length / threadsN maxThreads trainingExamples.length) ∧
    examples.flatten = trainingExamples.take cursor ∧
    cursor = threadsN maxThreads trainingExamples.length *
      (trainingExamples.length / threadsN maxThreads trainingExamples.length) ∧
    trainingExamples.length = cursor +
      trainingExamples.length % threadsN maxThreads trainingExamples.length := by
  rw [partitionExamples_eq trainingExamples maxThreads hN hW] at h
  by_cases hlt : trainingExamples.length / threadsN maxThreads trainingExamples.length
      < trainingExamples.length % threadsN maxThreads trainingExamples.length
  · rw [if_pos hlt] at h
    exact absurd h (by simp)
  · rw [if_neg hlt] at h
    have h2 := Option.some.inj h
    have he := congrArg Prod.fst h2
    have hc := congrArg Prod.snd h2
    simp only [] at he hc
    have hdm := Nat.div_add_mod trainingExamples.length
      (threadsN maxThreads trainingExamples.length)
    refine ⟨?_, ?_, ?_, hc.symm, ?_⟩
    · rw [← he, slicesFrom_length]
    · intro t ht
      rw [← he] at ht
      exact slicesFrom_mem_length trainingExamples _ _ 0 (by omega) t ht
    · rw [← he, ← hc, slicesFrom_flatten, List.drop_zero]
    · rw [← hc]
      omega

namespace ThreadGradients

variable {nIn n1 n2 n3 : ℕ}

theorem zero_eq : ThreadGradients.zero nIn n1 n2 n3 = 0 := rfl

end ThreadGradients

namespace WordAnalysisLevel

variable {nIn n1 n2 n3 : ℕ}

theorem copy_parameters (self : WordAnalysisLevel nIn n1 n2 n3) :
    self.copy.parameters = self.parameters := rfl

theorem analyzeWord_parameters (self : WordAnalysisLevel nIn n1 n2 n3) (encodedWord : List ℤ) :
    (self.analyzeWord encodedWord).1.parameters = self.parameters := rfl

theorem analyzeWord_eq_forward (self : WordAnalysisLevel nIn n1 n2 n3) (encodedWord : List ℤ) :
    (self.analyzeWord encodedWord).2 = self.parameters.forward encodedWord := rfl

theorem calculateGradientsExample_eq
    (state : WordAnalysisLevel nIn n1 n2 n3 × ThreadGradients nIn n1 n2 n3)
    (trainingExample : TrainingExample n3) :
    calculateGradientsExample state trainingExample =
      some ((state.1.analyzeWord trainingExample.1).1,
        state.2 + state.1.parameters.exampleGradients trainingExample) := rfl

theorem foldlM_calculateGradientsExample (p : NetworkParameters nIn n1 n2 n3) :
    ∀ (trainingExamples : List (TrainingExample n3))
      (localCopy : WordAnalysisLevel nIn n1 n2 n3) (gradients : ThreadGradients nIn n1 n2 n3),
      localCopy.parameters = p →
      ∃ localCopy2 : WordAnalysisLevel nIn n1 n2 n3, localCopy2.parameters = p ∧
        trainingExamples.foldlM calculateGradientsExample (localCopy, gradients) =
          some (localCopy2, gradients + (trainingExamples.map p.exampleGradients).sum) := by
  intro trainingExamples
  induction trainingExamples with
  | nil =>
    intro localCopy gradients h
    exact ⟨localCopy, h, by simp⟩
  | cons e l ih =>
    intro localCopy gradients h
    obtain ⟨lc2, h2, hfold⟩ := ih (localCopy.analyzeWord e.1).1
      (gradients + localCopy.parameters.exampleGradients e)
      ((analyzeWord_parameters localCopy e.1).trans h)
    refine ⟨lc2, h2, ?_⟩
    rw [List.foldlM_cons, calculateGradientsExample_eq]
    simp only [Option.some_bind, Option.bind_eq_bind]
    rw [hfold, h, List.map_cons, List.sum_cons, add_assoc]

/-- Closed form of `calculateGradients`: it always returns, and adds to the
accumulators the sum of what each example contributes. -/
theorem calculateGradients_eq (network : WordAnalysisLevel nIn n1 n2 n3)
    (trainingExamples : List (TrainingExample n3))
    (gradients : ThreadGradients nIn n1 n2 n3) :
    calculateGradients network trainingExamples gradients =
      some (gradients + (trainingExamples.map network.parameters.exampleGradients).sum) := by
  obtain ⟨lc2, _, hfold⟩ := foldlM_calculateGradientsExample network.parameters
    trainingExamples network.copy gradients (copy_parameters network)
  unfold calculateGradients
  rw [hfold]
  rfl

/-- Closed form of the worker threads: one result per slice. -/
theorem runThreads_eq (self : WordAnalysisLevel nIn n1 n2 n3) :
    ∀ examples : List (List (TrainingExample n3)),
      self.runThreads examples =
        some (examples.map fun threadExamples =>
          (threadExamples.map self.parameters.exampleGradients).sum) := by
  intro examples
  induction examples with
  | nil => rfl
  | cons threadExamples rest ih =>
    rw [runThreads, calculateGradients_eq, ih, ThreadGradients.zero_eq, zero_add]
    rfl

end WordAnalysisLevel

theorem foldl_add_eq_sum {β M : Type} [AddMonoid M] (f : β → M) :
    ∀ (l : List β) (a : M), l.foldl (fun total e => total + f e) a = a + (l.map f).sum := by
  intro l
  induction l with
  | nil => intro a; simp
  | cons b l ih => intro a; rw [List.foldl_cons, ih, List.map_cons, List.sum_cons, add_assoc]

namespace WordAnalysisLevel

variable {nIn n1 n2 n3 : ℕ}

/-- The result of `backpropagate` once the partition loop has produced its slices. -/
theorem backpropagate_eq_of_partition (self : WordAnalysisLevel nIn n1 n2 n3)
    (trainingExamples : List (TrainingExample n3)) (learningSpeed : ℝ) (maxThreads : ℕ)
    (examples : List (List (TrainingExample n3)) × ℕ)
    (hp : partitionExamples trainingExamples maxThreads = some examples) :
    self.backpropagate trainingExamples learningSpeed maxThreads =
      some (reduceAndAdjust self trainingExamples.length learningSpeed
        (examples.1.map fun threadExamples =>
          (threadExamples.map self.parameters.exampleGradients).sum)) := by
  unfold backpropagate
  rw [hp]
  simp only [Option.some_bind, Option.bind_eq_bind]
  rw [runThreads_eq]
  rfl

/-- A call of `backpropagate` has a result exactly when the partition loop has one. -/
theorem backpropagate_eq_none_of_partition (self : WordAnalysisLevel nIn n1 n2 n3)
    (trainingExamples : List (TrainingExample n3)) (learningSpeed : ℝ) (maxThreads : ℕ)
    (hp : partitionExamples trainingExamples maxThreads = none) :
    self.backpropagate trainingExamples learningSpeed maxThreads = none := by
  unfold backpropagate
  rw [hp]
  rfl

end WordAnalysisLevel

/-- C1, the code at a failing input. A batch of three examples with
`maxThreads = 2` gives `threadsN = 2`, `examplesPerThread = 1` and
`threadsWithExtraExamples = 1`; the loop of line 131 tests the counter `j`
against `threadsWithExtraExamples` (not the worker index), so both workers
receive one example and the third example is assigned to no worker: the
concatenated slices are not the batch. -/
theorem partition_three_examples_two_threads :
    partitionExamples ([10, 20, 30] : List ℕ) 2 = some ([[10], [20]], 2) ∧
      ([[10], [20]] : List (List ℕ)).flatten ≠ [10, 20, 30] := by
  constructor
  · simp [partitionExamples, threadsN, partitionStep, fillThreadExamples, fillCondition,
      List.range_succ]
  · decide

/-- C2, the code at a failing input. For five examples and `maxThreads = 2`
(`5 / 2 = 2`, `5 % 2 = 1`) worker 0 should receive `5 / 2 + 1 = 3` examples and
worker 1 two; the partition loop gives both workers two. -/
theorem partition_five_examples_two_threads_sizes :
    (partitionExamples ([10, 20, 30, 40, 50] : List ℕ) 2).map
        (fun examples => examples.1.map List.length) = some [2, 2] ∧
      threadsN 2 5 = 2 ∧ 5 / 2 + 1 = 3 ∧ 0 < 5 % 2 := by
  refine ⟨?_, by decide, by decide, by decide⟩
  simp [partitionExamples, threadsN, partitionStep, fillThreadExamples, fillCondition,
    List.range_succ]

theorem MiddleLayer.computeOutput_getWeightedInput {neurons previousLayerNeurons : ℕ}
    (self : MiddleLayer neurons previousLayerNeurons)
    (previousOutput : MatrixXf previousLayerNeurons 1) :
    (self.computeOutput previousOutput).getWeightedInput =
      some (self.connections * previousOutput) := rfl

theorem MiddleLayer.computeOutput_getOutput {neurons previousLayerNeurons : ℕ}
    (self : MiddleLayer neurons previousLayerNeurons)
    (previousOutput : MatrixXf previousLayerNeurons 1) :
    (self.computeOutput previousOutput).getOutput =
      Matrix.of fun j i =>
        activationFunction ((self.connections * previousOutput) j i + self.bias j i) := rfl

theorem activationFunction_zero : activationFunction 0 = 0 := by
  simp [activationFunction]

theorem activationFunction_one : activationFunction 1 = 1 / 2 := by
  unfold activationFunction
  rw [Real.arctan_one]
  have hpi : Real.pi ≠ 0 := Real.pi_ne_zero
  field_simp
  ring

/-- C3, the code at a failing input. On the layer with weight `1` and bias `-1`
and the input column `[1]`, `computeOutput` caches the weighted input `[1]`,
the product alone, while `W * previousOutput + b` is `[0]`; the cached output
is `activationFunction 0 = 0`, while the activation of the cached weighted
input is `activationFunction 1 = 1/2`. -/
theorem computeOutput_caches_product_without_bias :
    (shiftedLayer.computeOutput !![1]).getWeightedInput = some !![1] ∧
      shiftedLayer.connections * !![1] + shiftedLayer.bias = !![0] ∧
      (shiftedLayer.computeOutput !![1]).getOutput = !![0] ∧
      (Matrix.of fun j i => activationFunction ((!![1] : MatrixXf 1 1) j i)) = !![1 / 2] := by
  refine ⟨?_, ?_, ?_, ?_⟩
  · rw [MiddleLayer.computeOutput_getWeightedInput]
    congr 1
    ext i j
    fin_cases i; fin_cases j
    simp [shiftedLayer, Matrix.mul_apply]
  · ext i j
    fin_cases i; fin_cases j
    simp [shiftedLayer, Matrix.mul_apply]
  · rw [MiddleLayer.computeOutput_getOutput]
    ext i j
    fin_cases i; fin_cases j
    simp [shiftedLayer, Matrix.mul_apply, activationFunction_zero]
  · ext i j
    fin_cases i; fin_cases j
    simp [activationFunction_one]

/-- The derivative of `activationFunction` at `x` is `atanDeriverate x` divided
by `π / 2`. -/
theorem hasDerivAt_activationFunction (x : ℝ) :
    HasDerivAt activationFunction (atanDeriverate x / (Real.pi / 2)) x := by
  have h := (Real.hasDerivAt_arctan x).div_const (Real.pi / 2)
  have e : atanDeriverate x = 1 / (1 + x ^ 2) := by
    unfold atanDeriverate
    rw [pow_two]
  rw [e]
  exact h

/-- C4, the code at a failing input. At `x = 0` the function used by
backpropagation gives `atanDeriverate 0 = 1`, while the derivative of
`activationFunction` at `0` is `2 / π`, which is not `1`. -/
theorem atanDeriverate_zero_not_activation_derivative :
    atanDeriverate 0 = 1 ∧ HasDerivAt activationFunction (2 / Real.pi) 0 ∧
      ¬ HasDerivAt activationFunction (atanDeriverate 0) 0 := by
  have h1 : atanDeriverate 0 = 1 := by simp [atanDeriverate]
  have h2 : HasDerivAt activationFunction (2 / Real.pi) 0 := by
    have h := hasDerivAt_activationFunction 0
    rw [h1] at h
    have e : (1 : ℝ) / (Real.pi / 2) = 2 / Real.pi := by
      field_simp
    rw [e] at h
    exact h
  refine ⟨h1, h2, ?_⟩
  intro h3
  rw [h1] at h3
  have hu := h3.unique h2
  have hpi : Real.pi ≠ 0 := Real.pi_ne_zero
  have h4 : 1 * Real.pi = 2 := (eq_div_iff hpi).1 hu
  have h5 := Real.pi_gt_three
  linarith

theorem exampleCost_scalarNetwork (w : ℝ) :
    exampleCost (scalarNetwork w) unitExample
      = 1 / 2 * (activationFunction (w * (1 / 2)) - 1) ^ 2 := by
  simp [exampleCost, matSum, cwiseProduct, WordAnalysisLevel.analyzeWord,
    MiddleLayer.computeOutput, MiddleLayer.getOutput, WordsInputLayer.computeOutput,
    WordsInputLayer.getOutput, scalarNetwork, unitExample, Matrix.mul_apply,
    activationFunction_one, activationFunction_zero, pow_two]

theorem hasDerivAt_exampleCost_scalarNetwork :
    HasDerivAt (fun w => exampleCost (scalarNetwork w) unitExample) (-(1 / Real.pi)) 0 := by
  have hpi : Real.pi ≠ 0 := Real.pi_ne_zero
  have h1 : HasDerivAt (fun w : ℝ => w * (1 / 2)) (1 * (1 / 2)) 0 :=
    (hasDerivAt_id (0 : ℝ)).mul_const (1 / 2)
  have h2 : HasDerivAt activationFunction (atanDeriverate 0 / (Real.pi / 2)) ((0 : ℝ) * (1 / 2)) := by
    rw [zero_mul]
    exact hasDerivAt_activationFunction 0
  have h3 := h2.comp (0 : ℝ) h1
  have h4 := ((h3.sub_const 1).pow 2).const_mul (1 / 2 : ℝ)
  have hfun : (fun w => exampleCost (scalarNetwork w) unitExample)
      = fun w => 1 / 2 * ((activationFunction ∘ fun w : ℝ => w * (1 / 2)) w - 1) ^ 2 := by
    funext w
    rw [exampleCost_scalarNetwork]
    rfl
  rw [hfun]
  convert h4 using 1
  simp [activationFunction_zero, atanDeriverate]
  field_simp

/-- C5, the code at a failing input. In `scalarNetwork 0` the output is
`activationFunction (w * 1/2)` as a function of the last layer's weight `w`, so
the cost of `unitExample` has derivative `-1/π` at `w = 0`. From zero
accumulators `calculateGradients` accumulates `-1/2` for that weight: it uses
`atanDeriverate`, which lacks the factor `1 / (π/2)` of the activation's
derivative. -/
theorem calculateGradients_scalarNetwork_not_partial_derivative :
    ∃ g : ThreadGradients 1 1 1 1,
      (scalarNetwork 0).calculateGradients [unitExample] (ThreadGradients.zero 1 1 1 1) = some g ∧
      g.weightsGradients2 0 0 = -(1 / 2) ∧
      HasDerivAt (fun w => exampleCost (scalarNetwork w) unitExample) (-(1 / Real.pi)) 0 ∧
      ¬ HasDerivAt (fun w => exampleCost (scalarNetwork w) unitExample)
          (g.weightsGradients2 0 0) 0 := by
  have hg : ((scalarNetwork 0).parameters.exampleGradients unitExample).weightsGradients2 0 0
      = -(1 / 2) := by
    simp [NetworkParameters.exampleGradients, WordAnalysisLevel.parameters, scalarNetwork,
      unitExample, cwiseProduct, atanDeriverateX, atanDeriverate, Matrix.mul_apply,
      activationFunction_one, activationFunction_zero]
  refine ⟨(scalarNetwork 0).parameters.exampleGradients unitExample, ?_, hg,
    hasDerivAt_exampleCost_scalarNetwork, ?_⟩
  · rw [WordAnalysisLevel.calculateGradients_eq, ThreadGradients.zero_eq]
    simp
  · rw [hg]
    intro h
    have hu := h.unique hasDerivAt_exampleCost_scalarNetwork
    have hpi : Real.pi ≠ 0 := Real.pi_ne_zero
    have h3 := Real.pi_gt_three
    have h4 : (1 : ℝ) / 2 = 1 / Real.pi := by linarith
    rw [div_eq_div_iff (by norm_num) hpi] at h4
    linarith

theorem WordAnalysisLevel.reduceAndAdjust_cost {nIn n1 n2 n3 : ℕ}
    (self : WordAnalysisLevel nIn n1 n2 n3) (size : ℕ) (learningSpeed : ℝ)
    (gradients : List (ThreadGradients nIn n1 n2 n3)) :
    (self.reduceAndAdjust size learningSpeed gradients).2 =
      (gradients.map fun e => e.totalCost).sum / ((2 * size : ℕ) : ℝ) := by
  unfold WordAnalysisLevel.reduceAndAdjust
  simp only []
  rw [foldl_add_eq_sum (fun e : ThreadGradients nIn n1 n2 n3 => e.totalCost), zero_add]

theorem scalarNetwork_squaredError (word : List ℤ) :
    ((scalarNetwork 0).parameters.exampleGradients (word, !![1])).totalCost = 1 := by
  simp [NetworkParameters.exampleGradients, WordAnalysisLevel.parameters, scalarNetwork,
    cwiseProduct, matSum, Matrix.mul_apply, activationFunction_zero]

/-- C6, the code at a failing input. On `scalarNetwork 0` every example of
`threeExamples` has squared error `1`, so the stated cost is `3 / (2 * 3) = 1/2`.
With `maxThreads = 2` the partition loop hands out only the first two examples
and `backpropagate` returns `2 / (2 * 3) = 1/3`. -/
theorem backpropagate_cost_three_examples_two_threads :
    (∃ after : WordAnalysisLevel 1 1 1 1,
      (scalarNetwork 0).backpropagate threeExamples 1 2 = some (after, 1 / 3)) ∧
      meanSquaredCost (scalarNetwork 0) threeExamples = 1 / 2 := by
  constructor
  · have hp : partitionExamples threeExamples 2
        = some ([[([1], !![1])], [([2], !![1])]], 2) := by
      simp [threeExamples, partitionExamples, threadsN, partitionStep, fillThreadExamples,
        fillCondition, List.range_succ]
    refine ⟨((scalarNetwork 0).reduceAndAdjust threeExamples.length 1
      ([[([1], !![1])], [([2], !![1])]].map fun threadExamples =>
        (threadExamples.map (scalarNetwork 0).parameters.exampleGradients).sum)).1, ?_⟩
    rw [WordAnalysisLevel.backpropagate_eq_of_partition _ _ _ _ _ hp]
    congr 1
    refine Prod.ext rfl ?_
    rw [WordAnalysisLevel.reduceAndAdjust_cost]
    simp only [List.map_cons, List.map_nil, List.sum_cons, List.sum_nil, add_zero]
    simp only [scalarNetwork_squaredError, threeExamples, List.length_cons, List.length_nil]
    norm_num
  · unfold meanSquaredCost
    simp only [WordAnalysisLevel.analyzeWord_eq_forward]
    have h1 : ∀ word : List ℤ,
        matSum (cwiseProduct ((scalarNetwork 0).parameters.forward word - !![1])
          ((scalarNetwork 0).parameters.forward word - !![1])) = 1 := by
      intro word
      exact scalarNetwork_squaredError word
    simp only [threeExamples, List.map_cons, List.map_nil, h1, List.sum_cons, List.sum_nil,
      List.length_cons, List.length_nil]
    norm_num

namespace WordAnalysisLevel

variable {nIn n1 n2 n3 : ℕ}

theorem reduceAndAdjust_parameters (self : WordAnalysisLevel nIn n1 n2 n3) (size : ℕ)
    (learningSpeed : ℝ) (gradients : List (ThreadGradients nIn n1 n2 n3)) :
    (self.reduceAndAdjust size learningSpeed gradients).1.layers0.getWeights =
        self.layers0.getWeights +
          (-learningSpeed / (size : ℝ)) • (gradients.map fun g => g.weightsGradients0).sum ∧
      (self.reduceAndAdjust size learningSpeed gradients).1.layers1.getWeights =
        self.layers1.getWeights +
          (-learningSpeed / (size : ℝ)) • (gradients.map fun g => g.weightsGradients1).sum ∧
      (self.reduceAndAdjust size learningSpeed gradients).1.layers2.getWeights =
        self.layers2.getWeights +
          (-learningSpeed / (size : ℝ)) • (gradients.map fun g => g.weightsGradients2).sum ∧
      (self.reduceAndAdjust size learningSpeed gradients).1.layers0.bias =
        self.layers0.bias +
          (-learningSpeed / (size : ℝ)) • (gradients.map fun g => g.biasesGradients0).sum ∧
      (self.reduceAndAdjust size learningSpeed gradients).1.layers1.bias =
        self.layers1.bias +
          (-learningSpeed / (size : ℝ)) • (gradients.map fun g => g.biasesGradients1).sum ∧
      (self.reduceAndAdjust size learningSpeed gradients).1.layers2.bias =
        self.layers2.bias +
          (-learningSpeed / (size : ℝ)) • (gradients.map fun g => g.biasesGradients2).sum := by
  unfold reduceAndAdjust MiddleLayer.adjustBiases MiddleLayer.adjustConnections
    MiddleLayer.getWeights
  simp only []
  rw [foldl_add_eq_sum (fun e : ThreadGradients nIn n1 n2 n3 => e.weightsGradients0),
    foldl_add_eq_sum (fun e : ThreadGradients nIn n1 n2 n3 => e.weightsGradients1),
    foldl_add_eq_sum (fun e : ThreadGradients nIn n1 n2 n3 => e.weightsGradients2),
    foldl_add_eq_sum (fun e : ThreadGradients nIn n1 n2 n3 => e.biasesGradients0),
    foldl_add_eq_sum (fun e : ThreadGradients nIn n1 n2 n3 => e.biasesGradients1),
    foldl_add_eq_sum (fun e : ThreadGradients nIn n1 n2 n3 => e.biasesGradients2)]
  simp only [zero_add, and_self]

/-- The workers' results, slice by slice, are what `calculateGradients` returns
on the live network from zeroed accumulators. -/
theorem forall₂_calculateGradients (self : WordAnalysisLevel nIn n1 n2 n3) :
    ∀ examples : List (List (TrainingExample n3)),
      List.Forall₂
        (fun threadExamples g =>
          self.calculateGradients threadExamples (ThreadGradients.zero nIn n1 n2 n3) = some g)
        examples
        (examples.map fun threadExamples =>
          (threadExamples.map self.parameters.exampleGradients).sum) := by
  intro examples
  induction examples with
  | nil => exact List.Forall₂.nil
  | cons threadExamples rest ih =>
    refine List.Forall₂.cons ?_ ih
    rw [calculateGradients_eq, ThreadGradients.zero_eq, zero_add]

/-- C7. For every non-empty batch, learning rate and `maxThreads ≥ 1`: if the
partition loop stays inside the batch (`examplesPerThread` is not below
`threadsWithExtraExamples`) the call of `backpropagate` returns; and whenever
it returns, with `gradients` the accumulators of the workers (worker by worker
what `calculateGradients` returns on that worker's slice from zeroed
accumulators), every layer's weights after the call are its weights before
plus `-learningSpeed / N` times the sum of the workers' weight gradients for
that layer, and likewise every layer's bias. -/
theorem backpropagate_adjusts_by_summed_worker_gradients
    (self : WordAnalysisLevel nIn n1 n2 n3) (trainingExamples : List (TrainingExample n3))
    (learningSpeed : ℝ) (maxThreads : ℕ)
    (hN : trainingExamples ≠ []) (hW : 1 ≤ maxThreads) :
    (¬ (trainingExamples.length / threadsN maxThreads trainingExamples.length
          < trainingExamples.length % threadsN maxThreads trainingExamples.length) →
        ∃ result, self.backpropagate trainingExamples learningSpeed maxThreads = some result) ∧
    ∀ (after : WordAnalysisLevel nIn n1 n2 n3) (cost : ℝ),
      self.backpropagate trainingExamples learningSpeed maxThreads = some (after, cost) →
      ∃ (examples : List (List (TrainingExample n3)))
        (gradients : List (ThreadGradients nIn n1 n2 n3)),
        (partitionExamples trainingExamples maxThreads).map Prod.fst = some examples ∧
        List.Forall₂
          (fun threadExamples g =>
            self.calculateGradients threadExamples (ThreadGradients.zero nIn n1 n2 n3) = some g)
          examples gradients ∧
        after.layers0.getWeights = self.layers0.getWeights +
          (-learningSpeed / (trainingExamples.length : ℝ)) •
            (gradients.map fun g => g.weightsGradients0).sum ∧
        after.layers1.getWeights = self.layers1.getWeights +
          (-learningSpeed / (trainingExamples.length : ℝ)) •
            (gradients.map fun g => g.weightsGradients1).sum ∧
        after.layers2.getWeights = self.layers2.getWeights +
          (-learningSpeed / (trainingExamples.length : ℝ)) •
            (gradients.map fun g => g.weightsGradients2).sum ∧
        after.layers0.bias = self.layers0.bias +
          (-learningSpeed / (trainingExamples.length : ℝ)) •
            (gradients.map fun g => g.biasesGradients0).sum ∧
        after.layers1.bias = self.layers1.bias +
          (-learningSpeed / (trainingExamples.length : ℝ)) •
            (gradients.map fun g => g.biasesGradients1).sum ∧
        after.layers2.bias = self.layers2.bias +
          (-learningSpeed / (trainingExamples.length : ℝ)) •
            (gradients.map fun g => g.biasesGradients2).sum := by
  constructor
  · intro hb
    have hp := partitionExamples_eq trainingExamples maxThreads hN hW
    rw [if_neg hb] at hp
    exact ⟨_, backpropagate_eq_of_partition self trainingExamples learningSpeed maxThreads _ hp⟩
  · intro after cost h
    cases hp : partitionExamples trainingExamples maxThreads with
    | none =>
      rw [backpropagate_eq_none_of_partition self trainingExamples learningSpeed maxThreads hp]
        at h
      exact absurd h (by simp)
    | some examples =>
      rw [backpropagate_eq_of_partition self trainingExamples learningSpeed maxThreads
        examples hp] at h
      have hafter : after = (self.reduceAndAdjust trainingExamples.length learningSpeed
          (examples.1.map fun threadExamples =>
            (threadExamples.map self.parameters.exampleGradients).sum)).1 := by
        have := Option.some.inj h
        rw [this]
      refine ⟨examples.1, _, rfl, forall₂_calculateGradients self examples.1, ?_⟩
      rw [hafter]
      exact reduceAndAdjust_parameters self trainingExamples.length learningSpeed _

/-- Witness of C7: the three examples on `scalarNetwork 0` with three threads. -/
theorem backpropagate_adjusts_three_examples_three_threads :
    threeExamples ≠ [] ∧ 1 ≤ 3 ∧
    ∃ (after : WordAnalysisLevel 1 1 1 1) (cost : ℝ)
      (gradients : List (ThreadGradients 1 1 1 1)),
      (scalarNetwork 0).backpropagate threeExamples 1 3 = some (after, cost) ∧
      after.layers2.getWeights = (scalarNetwork 0).layers2.getWeights +
        (-1 / (threeExamples.length : ℝ)) • (gradients.map fun g => g.weightsGradients2).sum ∧
      after.layers2.bias = (scalarNetwork 0).layers2.bias +
        (-1 / (threeExamples.length : ℝ)) • (gradients.map fun g => g.biasesGradients2).sum := by
  have hN : threeExamples ≠ [] := by simp [threeExamples]
  have h := backpropagate_adjusts_by_summed_worker_gradients (scalarNetwork 0) threeExamples 1 3
    hN (by norm_num)
  obtain ⟨result, hr⟩ := h.1 (by simp [threeExamples, threadsN])
  obtain ⟨_, gradients, _, _, _, _, h2, _, _, h5⟩ := h.2 result.1 result.2 hr
  exact ⟨hN, by norm_num, result.1, result.2, gradients, hr, h2, h5⟩

/-- The loop body of `calculateGradients` for one example, written with the
function the code applies to the cached weighted inputs, `atanDeriverate`:
with `localCopy` the worker's copy after the forward pass and `z0`, `z1`, `z2`
the weighted inputs its layers have cached, `delta2` is `(output - target)`
times, entry by entry, `atanDeriverate` of `z2`; `delta1` and `delta0` follow
from the transposed weights of the layer above; and the call adds `delta_k`
times the transposed output of the layer below to the weight gradient of layer
`k` and `delta_k` to its bias gradient. -/
theorem calculateGradients_follows_recurrence (network : WordAnalysisLevel nIn n1 n2 n3)
    (trainingExample : TrainingExample n3) (gradients : ThreadGradients nIn n1 n2 n3) :
    ∃ (z0 : MatrixXf n1 1) (z1 : MatrixXf n2 1) (z2 : MatrixXf n3 1)
      (g : ThreadGradients nIn n1 n2 n3),
      let localCopy := (network.copy.analyzeWord trainingExample.1).1
      let delta2 := cwiseProduct (localCopy.layers2.getOutput - trainingExample.2)
        (atanDeriverateX z2)
      let delta1 := cwiseProduct (localCopy.layers2.getWeights.transpose * delta2)
        (atanDeriverateX z1)
      let delta0 := cwiseProduct (localCopy.layers1.getWeights.transpose * delta1)
        (atanDeriverateX z0)
      localCopy.layers0.getWeightedInput = some z0 ∧
      localCopy.layers1.getWeightedInput = some z1 ∧
      localCopy.layers2.getWeightedInput = some z2 ∧
      localCopy.layers1.getWeights = network.layers1.getWeights ∧
      localCopy.layers2.getWeights = network.layers2.getWeights ∧
      network.calculateGradients [trainingExample] gradients = some g ∧
      g.weightsGradients2 =
        gradients.weightsGradients2 + delta2 * localCopy.layers1.getOutput.transpose ∧
      g.biasesGradients2 = gradients.biasesGradients2 + delta2 ∧
      g.weightsGradients1 =
        gradients.weightsGradients1 + delta1 * localCopy.layers0.getOutput.transpose ∧
      g.biasesGradients1 = gradients.biasesGradients1 + delta1 ∧
      g.weightsGradients0 =
        gradients.weightsGradients0 + delta0 * localCopy.inputLayer.getOutput.transpose ∧
      g.biasesGradients0 = gradients.biasesGradients0 + delta0 := by
  refine ⟨_, _, _, gradients + network.parameters.exampleGradients trainingExample,
    rfl, rfl, rfl, rfl, rfl, ?_, rfl, rfl, rfl, rfl, rfl, rfl⟩
  rw [calculateGradients_eq]
  simp

/-- C9. For every network and lists of examples `A` and `B`, from zeroed
accumulators: `calculateGradients` on `A` returns the sum (field by field:
each layer's weight gradient, each layer's bias gradient and the cost) of what
it returns on each example of `A` alone, and on `A ++ B` it returns the sum of
what it returns on `A` and on `B`. -/
theorem calculateGradients_sums_over_examples (network : WordAnalysisLevel nIn n1 n2 n3)
    (A B : List (TrainingExample n3)) :
    (∃ contributions : List (ThreadGradients nIn n1 n2 n3),
      List.Forall₂
        (fun trainingExample c =>
          network.calculateGradients [trainingExample] (ThreadGradients.zero nIn n1 n2 n3)
            = some c)
        A contributions ∧
      network.calculateGradients A (ThreadGradients.zero nIn n1 n2 n3)
        = some contributions.sum) ∧
    ∃ gA gB : ThreadGradients nIn n1 n2 n3,
      network.calculateGradients A (ThreadGradients.zero nIn n1 n2 n3) = some gA ∧
      network.calculateGradients B (ThreadGradients.zero nIn n1 n2 n3) = some gB ∧
      network.calculateGradients (A ++ B) (ThreadGradients.zero nIn n1 n2 n3)
        = some (gA + gB) := by
  constructor
  · refine ⟨A.map network.parameters.exampleGradients, ?_, ?_⟩
    · rw [List.forall₂_map_right_iff]
      refine List.forall₂_same.2 ?_
      intro trainingExample _
      rw [calculateGradients_eq, ThreadGradients.zero_eq]
      simp
    · rw [calculateGradients_eq, ThreadGradients.zero_eq, zero_add]
  · refine ⟨(A.map network.parameters.exampleGradients).sum,
      (B.map network.parameters.exampleGradients).sum, ?_, ?_, ?_⟩
    · rw [calculateGradients_eq, ThreadGradients.zero_eq, zero_add]
    · rw [calculateGradients_eq, ThreadGradients.zero_eq, zero_add]
    · rw [calculateGradients_eq, ThreadGradients.zero_eq, zero_add, List.map_append,
        List.sum_append]

/-- C10. `analyzeWord` returns the output the last layer has cached after the
call; after the call the encoder holds the encoding of the word, `layers[0]`
is `layers[0]` before the call after `computeOutput` on the encoder's output,
and `layers[1]`, `layers[2]` are those layers after `computeOutput` on the
output the layer before has just cached; so the returned column is the three
layers applied in order to the encoder's output. -/
theorem analyzeWord_composes_layers (self : WordAnalysisLevel nIn n1 n2 n3)
    (encodedWord : List ℤ) :
    (self.analyzeWord encodedWord).2 = (self.analyzeWord encodedWord).1.layers2.getOutput ∧
    (self.analyzeWord encodedWord).1.inputLayer.getOutput = self.inputLayer.encode encodedWord ∧
    (self.analyzeWord encodedWord).1.layers0 =
      self.layers0.computeOutput (self.analyzeWord encodedWord).1.inputLayer.getOutput ∧
    (self.analyzeWord encodedWord).1.layers1 =
      self.layers1.computeOutput (self.analyzeWord encodedWord).1.layers0.getOutput ∧
    (self.analyzeWord encodedWord).1.layers2 =
      self.layers2.computeOutput (self.analyzeWord encodedWord).1.layers1.getOutput ∧
    (self.analyzeWord encodedWord).2 =
      (self.layers2.computeOutput
        (self.layers1.computeOutput
          (self.layers0.computeOutput (self.inputLayer.encode encodedWord)).getOutput
        ).getOutput).getOutput :=
  ⟨rfl, rfl, rfl, rfl, rfl, rfl⟩

end WordAnalysisLevel

/-! ## The number of workers -/

/-- C11. For every non-empty batch of `N` examples and `maxThreads ≥ 1`, the
number of workers `threadsN` (the bound of the loop of line 108) is
`min maxThreads N`, at least 1 and at most `N`; and whenever the loop over the
workers completes it has built exactly `threadsN` slices, one per worker. -/
theorem threadsN_eq_min_and_bounds {α : Type} (trainingExamples : List α) (maxThreads : ℕ)
    (hN : trainingExamples ≠ []) (hW : 1 ≤ maxThreads) :
    threadsN maxThreads trainingExamples.length = min maxThreads trainingExamples.length ∧
    1 ≤ threadsN maxThreads trainingExamples.length ∧
    threadsN maxThreads trainingExamples.length ≤ trainingExamples.length ∧
    ∀ (examples : List (List α)) (cursor : ℕ),
      partitionExamples trainingExamples maxThreads = some (examples, cursor) →
      examples.length = threadsN maxThreads trainingExamples.length := by
  have hlen : 1 ≤ trainingExamples.length := by
    cases trainingExamples with
    | nil => exact absurd rfl hN
    | cons a l => simp
  refine ⟨?_, ?_, ?_, ?_⟩
  · unfold threadsN
    split
    · rw [Nat.min_def, if_pos (by omega)]
    · rw [Nat.min_def]
      split <;> omega
  · unfold threadsN
    split <;> omega
  · unfold threadsN
    split <;> omega
  · intro examples cursor h
    exact (partitionExamples_some trainingExamples maxThreads hN hW examples cursor h).1

/-- Witness of C11: three examples and two threads. -/
theorem threadsN_three_examples_two_threads :
    ([10, 20, 30] : List ℕ) ≠ [] ∧ 1 ≤ 2 ∧
    threadsN 2 ([10, 20, 30] : List ℕ).length = min 2 ([10, 20, 30] : List ℕ).length ∧
    1 ≤ threadsN 2 ([10, 20, 30] : List ℕ).length ∧
    threadsN 2 ([10, 20, 30] : List ℕ).length ≤ ([10, 20, 30] : List ℕ).length := by
  have h := threadsN_eq_min_and_bounds ([10, 20, 30] : List ℕ) 2 (by simp) (by norm_num)
  exact ⟨by simp, by norm_num, h.1, h.2.1, h.2.2.1⟩

/-! ## The activation function -/

/-- Over the exact reals, before the conversion to `float`: `atan x / (π/2)` lies
strictly between `-1` and `1`, and it is `0` at `0`. -/
theorem activationFunction_bounds (x : ℝ) :
    -1 < activationFunction x ∧ activationFunction x < 1 ∧ activationFunction 0 = 0 := by
  have hpos : 0 < Real.pi / 2 := by positivity
  refine ⟨?_, ?_, activationFunction_zero⟩
  · unfold activationFunction
    rw [lt_div_iff₀ hpos]
    have h := Real.neg_pi_div_two_lt_arctan x
    linarith
  · unfold activationFunction
    rw [div_lt_one hpos]
    exact Real.arctan_lt_pi_div_two x

/-- C15. The layer with weights `[[1,0],[0,1]]` and bias `[0,0]`, after
`computeOutput` on the column `[1,1]`, has cached the weighted input `[1,1]`
and the output `[atan(1)/(π/2), atan(1)/(π/2)]`, which is `[1/2, 1/2]`. -/
theorem computeOutput_identityLayer :
    (identityLayer.computeOutput !![1; 1]).getWeightedInput = some !![1; 1] ∧
    (identityLayer.computeOutput !![1; 1]).getOutput =
      !![Real.arctan 1 / (Real.pi / 2); Real.arctan 1 / (Real.pi / 2)] ∧
    (identityLayer.computeOutput !![1; 1]).getOutput = !![1 / 2; 1 / 2] := by
  have hout : (identityLayer.computeOutput !![1; 1]).getOutput = !![1 / 2; 1 / 2] := by
    rw [MiddleLayer.computeOutput_getOutput]
    ext i j
    fin_cases i <;> fin_cases j <;>
      simp [identityLayer, Matrix.mul_apply, Fin.sum_univ_succ, activationFunction_one]
  have hhalf : Real.arctan 1 / (Real.pi / 2) = 1 / 2 := activationFunction_one
  refine ⟨?_, ?_, hout⟩
  · rw [MiddleLayer.computeOutput_getWeightedInput]
    congr 1
    ext i j
    fin_cases i <;> fin_cases j <;>
      simp [identityLayer, Matrix.mul_apply, Fin.sum_univ_succ]
  · rw [hout, hhalf]

/-! ## Reads of the partition loop -/

/-- C18, the code at a failing input. For five examples and `maxThreads = 3`
(`threadsN = 3`, `examplesPerThread = 1`, `threadsWithExtraExamples = 2`) every
worker takes two examples: the third worker starts with the cursor at 4, reads
index 4 and then index 5, which is not below the batch size 5, so the loop has
no result. For three examples and `maxThreads = 2` the loop ends with the
cursor at 2, not at 3. -/
theorem partition_five_examples_three_threads_reads_past_end :
    threadsN 3 5 = 3 ∧ 5 / 3 = 1 ∧ 5 % 3 = 2 ∧
    fillThreadExamples ([10, 20, 30, 40, 50] : List ℕ) 1 2 0 0 [] = some ([10, 20], 2) ∧
    fillThreadExamples ([10, 20, 30, 40, 50] : List ℕ) 1 2 0 2 [] = some ([30, 40], 4) ∧
    fillThreadExamples ([10, 20, 30, 40, 50] : List ℕ) 1 2 0 4 [] = none ∧
    ([10, 20, 30, 40, 50] : List ℕ)[5]? = none ∧
    partitionExamples ([10, 20, 30, 40, 50] : List ℕ) 3 = none ∧
    (partitionExamples ([10, 20, 30] : List ℕ) 2).map Prod.snd = some 2 := by
  refine ⟨by decide, by decide, by decide, ?_, ?_, ?_, by decide, ?_, ?_⟩
  · simp [fillThreadExamples, fillCondition]
  · simp [fillThreadExamples, fillCondition]
  · simp [fillThreadExamples, fillCondition]
  · simp [partitionExamples, threadsN, partitionStep, fillThreadExamples, fillCondition,
      List.range_succ]
  · simp [partitionExamples, threadsN, partitionStep, fillThreadExamples, fillCondition,
      List.range_succ]

/-! ## The result and the thread count -/

/-- C19, the code at a failing input. On `scalarNetwork 0` with the three
examples and learning rate 1, `backpropagate` returns the cost `1/2` with
`maxThreads = 1` and the cost `1/3` with `maxThreads = 2`: with two threads the
partition loop hands out only the first two examples. -/
theorem backpropagate_cost_one_thread_two_threads :
    (∃ after1 after2 : WordAnalysisLevel 1 1 1 1,
      (scalarNetwork 0).backpropagate threeExamples 1 1 = some (after1, 1 / 2) ∧
      (scalarNetwork 0).backpropagate threeExamples 1 2 = some (after2, 1 / 3)) ∧
    (1 / 2 : ℝ) ≠ 1 / 3 := by
  have hp1 : partitionExamples threeExamples 1
      = some ([[([1], !![1]), ([2], !![1]), ([3], !![1])]], 3) := by
    simp [threeExamples, partitionExamples, threadsN, partitionStep, fillThreadExamples,
      fillCondition, List.range_succ]
  have hp2 : partitionExamples threeExamples 2
      = some ([[([1], !![1])], [([2], !![1])]], 2) := by
    simp [threeExamples, partitionExamples, threadsN, partitionStep, fillThreadExamples,
      fillCondition, List.range_succ]
  have ht : ∀ a b : ThreadGradients 1 1 1 1, (a + b).totalCost = a.totalCost + b.totalCost :=
    fun _ _ => rfl
  have hz : (0 : ThreadGradients 1 1 1 1).totalCost = 0 := rfl
  refine ⟨⟨((scalarNetwork 0).reduceAndAdjust threeExamples.length 1
      ([[([1], !![1]), ([2], !![1]), ([3], !![1])]].map fun threadExamples =>
        (threadExamples.map (scalarNetwork 0).parameters.exampleGradients).sum)).1,
    ((scalarNetwork 0).reduceAndAdjust threeExamples.length 1
      ([[([1], !![1])], [([2], !![1])]].map fun threadExamples =>
        (threadExamples.map (scalarNetwork 0).parameters.exampleGradients).sum)).1, ?_, ?_⟩,
    by norm_num⟩
  · rw [WordAnalysisLevel.backpropagate_eq_of_partition _ _ _ _ _ hp1]
    congr 1
    refine Prod.ext rfl ?_
    rw [WordAnalysisLevel.reduceAndAdjust_cost]
    simp only [List.map_cons, List.map_nil, List.sum_cons, List.sum_nil, add_zero, ht, hz,
      scalarNetwork_squaredError, threeExamples, List.length_cons, List.length_nil]
    norm_num
  · rw [WordAnalysisLevel.backpropagate_eq_of_partition _ _ _ _ _ hp2]
    congr 1
    refine Prod.ext rfl ?_
    rw [WordAnalysisLevel.reduceAndAdjust_cost]
    simp only [List.map_cons, List.map_nil, List.sum_cons, List.sum_nil, add_zero, ht, hz,
      scalarNetwork_squaredError, threeExamples, List.length_cons, List.length_nil]
    norm_num

/-! ## What the forward pass leaves alone -/

/-- C20. For every network and word, every layer's weights and bias are the
same after `analyzeWord` as before it; and for every layer and input column,
`computeOutput` leaves that layer's weights and bias as they were. -/
theorem analyzeWord_keeps_weights_and_biases {nIn n1 n2 n3 : ℕ}
    (self : WordAnalysisLevel nIn n1 n2 n3) (encodedWord : List ℤ) :
    (self.analyzeWord encodedWord).1.layers0.getWeights = self.layers0.getWeights ∧
    (self.analyzeWord encodedWord).1.layers1.getWeights = self.layers1.getWeights ∧
    (self.analyzeWord encodedWord).1.layers2.getWeights = self.layers2.getWeights ∧
    (self.analyzeWord encodedWord).1.layers0.bias = self.layers0.bias ∧
    (self.analyzeWord encodedWord).1.layers1.bias = self.layers1.bias ∧
    (self.analyzeWord encodedWord).1.layers2.bias = self.layers2.bias ∧
    ∀ (neurons previousLayerNeurons : ℕ) (layer : MiddleLayer neurons previousLayerNeurons)
      (previousOutput : MatrixXf previousLayerNeurons 1),
      (layer.computeOutput previousOutput).getWeights = layer.getWeights ∧
      (layer.computeOutput previousOutput).bias = layer.bias :=
  ⟨rfl, rfl, rfl, rfl, rfl, rfl, fun _ _ _ _ => ⟨rfl, rfl⟩⟩

/-! ## Calls outside the stated preconditions -/

theorem partitionExamples_eq_none_of_invalid {α : Type} (trainingExamples : List α)
    (maxThreads : ℕ) (h : trainingExamples = [] ∨ maxThreads = 0) :
    partitionExamples trainingExamples maxThreads = none := by
  have h0 : threadsN maxThreads trainingExamples.length = 0 := by
    unfold threadsN
    rcases h with h | h
    · rw [h]
      simp
    · rw [h]
      split <;> omega
  unfold partitionExamples
  simp only []
  rw [if_pos h0]

theorem scalarNetwork_weightsGradients2 :
    ((scalarNetwork 0).parameters.exampleGradients unitExample).weightsGradients2 0 0
      = -(1 / 2) := by
  simp [NetworkParameters.exampleGradients, WordAnalysisLevel.parameters, scalarNetwork,
    unitExample, cwiseProduct, atanDeriverateX, atanDeriverate, Matrix.mul_apply,
    activationFunction_one, activationFunction_zero]

/-- C12 as stated fails: with the learning rate `-1`, one example and one
thread, `backpropagate` on `scalarNetwork 0` returns a result, and the last
layer's weight has changed from `0` to `-1/2`. -/
theorem backpropagate_accepts_negative_learning_rate :
    ∃ (after : WordAnalysisLevel 1 1 1 1) (cost : ℝ),
      (scalarNetwork 0).backpropagate [unitExample] (-1) 1 = some (after, cost) ∧
      (scalarNetwork 0).layers2.getWeights 0 0 = 0 ∧
      after.layers2.getWeights 0 0 = -(1 / 2) := by
  have hp : partitionExamples [unitExample] 1 = some ([[unitExample]], 1) := by
    simp [partitionExamples, threadsN, partitionStep, fillThreadExamples, fillCondition,
      List.range_succ]
  have hr := WordAnalysisLevel.reduceAndAdjust_parameters (scalarNetwork 0)
    [unitExample].length (-1)
    ([[unitExample]].map fun threadExamples =>
      (threadExamples.map (scalarNetwork 0).parameters.exampleGradients).sum)
  refine ⟨((scalarNetwork 0).reduceAndAdjust [unitExample].length (-1)
      ([[unitExample]].map fun threadExamples =>
        (threadExamples.map (scalarNetwork 0).parameters.exampleGradients).sum)).1,
    ((scalarNetwork 0).reduceAndAdjust [unitExample].length (-1)
      ([[unitExample]].map fun threadExamples =>
        (threadExamples.map (scalarNetwork 0).parameters.exampleGradients).sum)).2,
    WordAnalysisLevel.backpropagate_eq_of_partition _ _ _ _ _ hp, ?_, ?_⟩
  · simp [scalarNetwork, MiddleLayer.getWeights]
  · rw [hr.2.2.1]
    simp only [List.map_cons, List.map_nil, List.sum_cons, List.sum_nil, add_zero,
      List.length_cons, List.length_nil, Matrix.add_apply, Matrix.smul_apply,
      scalarNetwork_weightsGradients2]
    simp [scalarNetwork, MiddleLayer.getWeights]

/-- C12, amended. For every network and learning rate, `backpropagate` called
with an empty batch or with `maxThreads = 0` has no result: `threadsN` is zero
and line 105 divides by it, before any layer is written, so no layer's weights
or biases are changed by the call. -/
theorem backpropagate_fails_on_empty_batch_or_zero_threads {nIn n1 n2 n3 : ℕ}
    (self : WordAnalysisLevel nIn n1 n2 n3) (trainingExamples : List (TrainingExample n3))
    (learningSpeed : ℝ) (maxThreads : ℕ)
    (h : trainingExamples = [] ∨ maxThreads = 0) :
    threadsN maxThreads trainingExamples.length = 0 ∧
    self.backpropagate trainingExamples learningSpeed maxThreads = none := by
  refine ⟨?_, WordAnalysisLevel.backpropagate_eq_none_of_partition self trainingExamples
    learningSpeed maxThreads (partitionExamples_eq_none_of_invalid trainingExamples maxThreads h)⟩
  unfold threadsN
  rcases h with h | h
  · rw [h]
    simp
  · rw [h]
    split <;> omega

/-- Witness of C12, amended: the empty batch, and three examples with no thread. -/
theorem backpropagate_fails_on_scalarNetwork :
    (scalarNetwork 0).backpropagate [] 1 1 = none ∧
    (scalarNetwork 0).backpropagate threeExamples 1 0 = none :=
  ⟨(backpropagate_fails_on_empty_batch_or_zero_threads (scalarNetwork 0) [] 1 1
      (Or.inl rfl)).2,
    (backpropagate_fails_on_empty_batch_or_zero_threads (scalarNetwork 0) threeExamples 1 0
      (Or.inr rfl)).2⟩

/-! ## Export and import of the parameters -/

theorem DynMatrix.toMatrix_ofMatrix {rows cols : ℕ} (A : MatrixXf rows cols)
    (hr : (DynMatrix.ofMatrix A).rows = rows) (hc : (DynMatrix.ofMatrix A).cols = cols) :
    (DynMatrix.ofMatrix A).toMatrix rows cols hr hc = A := by
  ext i j
  rfl

theorem MiddleLayer.initKnownConnections_roundtrip
    {neurons previousLayerNeurons : ℕ} (self : MiddleLayer neurons previousLayerNeurons) :
    self.initKnownConnections self.getKnownConnections = some self := by
  unfold MiddleLayer.initKnownConnections
  rw [dif_pos ⟨⟨rfl, rfl⟩, ⟨rfl, rfl⟩⟩]
  rfl

/-- C13. For every network, `initKnownConnections` called with the list that
`getKnownConnections` has just returned has a result, in which every layer's
weights and bias are what they were (the network is the same in every field),
so `analyzeWord` returns the same output for every word before and after. -/
theorem initKnownConnections_getKnownConnections {nIn n1 n2 n3 : ℕ}
    (self : WordAnalysisLevel nIn n1 n2 n3) :
    ∃ after : WordAnalysisLevel nIn n1 n2 n3,
      self.initKnownConnections self.getKnownConnections = some after ∧
      after = self ∧
      after.layers0.getWeights = self.layers0.getWeights ∧
      after.layers1.getWeights = self.layers1.getWeights ∧
      after.layers2.getWeights = self.layers2.getWeights ∧
      after.layers0.bias = self.layers0.bias ∧
      after.layers1.bias = self.layers1.bias ∧
      after.layers2.bias = self.layers2.bias ∧
      ∀ encodedWord : List ℤ,
        (after.analyzeWord encodedWord).2 = (self.analyzeWord encodedWord).2 := by
  refine ⟨self, ?_, rfl, rfl, rfl, rfl, rfl, rfl, rfl, fun _ => rfl⟩
  simp only [WordAnalysisLevel.initKnownConnections, WordAnalysisLevel.getKnownConnections,
    WordAnalysisLevel.initKnownConnectionsFrom, WordAnalysisLevel.initKnownConnectionsAt,
    MiddleLayer.initKnownConnections_roundtrip, Option.map_some']

/-! ## Shapes -/

/-- On a layer of fixed shapes, `computeOutput` on run-time shapes has a result,
the one `MiddleLayer.computeOutput` gives. -/
theorem MiddleLayer.toDyn_computeOutput {neurons previousLayerNeurons : ℕ}
    (self : MiddleLayer neurons previousLayerNeurons)
    (previousOutput : MatrixXf previousLayerNeurons 1) :
    self.toDyn.computeOutput (DynMatrix.ofMatrix previousOutput) =
      some (self.computeOutput previousOutput).toDyn := by
  have hprod : self.toDyn.connections.product (DynMatrix.ofMatrix previousOutput) =
      some (DynMatrix.ofMatrix (self.connections * previousOutput)) := by
    unfold DynMatrix.product
    rw [dif_pos (show self.toDyn.connections.cols = (DynMatrix.ofMatrix previousOutput).rows
      from rfl)]
    rfl
  unfold DynMiddleLayer.computeOutput
  rw [hprod]
  simp only []
  have hall : ∀ (j : Fin (DynMatrix.ofMatrix (self.connections * previousOutput)).rows)
      (i : Fin (DynMatrix.ofMatrix (self.connections * previousOutput)).cols),
      (j : ℕ) < self.toDyn.bias.rows ∧ (i : ℕ) < self.toDyn.bias.cols :=
    fun j i => ⟨j.isLt, i.isLt⟩
  rw [if_pos hall]
  have hget : ∀ (j : Fin neurons) (i : Fin 1),
      (self.toDyn.bias.coeffAt j i).getD 0 = self.bias j i := by
    intro j i
    unfold DynMatrix.coeffAt
    rw [dif_pos ⟨j.isLt, i.isLt⟩]
    rfl
  congr 1
  unfold MiddleLayer.toDyn MiddleLayer.computeOutput
  simp only [Option.map_some']
  congr 1
  unfold DynMatrix.ofMatrix
  congr 1
  ext j i
  exact congrArg (fun b => activationFunction ((self.connections * previousOutput) j i + b))
    (hget j i)

/-- C16. For every layer whose weight matrix is `m × n` (its bias being
`m × 1`, as both constructors make it) and every input column of height `n`,
`computeOutput` has a result, and in it the cached output has `m` rows and one
column and the cached weighted input has the same shape. -/
theorem DynMiddleLayer.computeOutput_shape (self : DynMiddleLayer)
    (previousOutput : DynMatrix) (m n : ℕ)
    (hW : self.connections.rows = m ∧ self.connections.cols = n)
    (hb : self.bias.rows = m ∧ self.bias.cols = 1)
    (hx : previousOutput.rows = n ∧ previousOutput.cols = 1) :
    ∃ (after : DynMiddleLayer) (z : DynMatrix),
      self.computeOutput previousOutput = some after ∧
      after.output.rows = m ∧ after.output.cols = 1 ∧
      after.weitghtedInput = some z ∧ z.rows = m ∧ z.cols = 1 := by
  have hc : self.connections.cols = previousOutput.rows := by rw [hW.2, hx.1]
  have hprod : self.connections.product previousOutput =
      some
        { rows := self.connections.rows
          cols := previousOutput.cols
          coeff := self.connections.coeff *
            Matrix.of fun k j => previousOutput.coeff (Fin.cast hc k) j } := by
    unfold DynMatrix.product
    rw [dif_pos hc]
  unfold DynMiddleLayer.computeOutput
  rw [hprod]
  simp only []
  have hall : ∀ (j : Fin self.connections.rows) (i : Fin previousOutput.cols),
      (j : ℕ) < self.bias.rows ∧ (i : ℕ) < self.bias.cols := by
    intro j i
    have hj := j.isLt
    have hi := i.isLt
    rw [hb.1, hb.2]
    omega
  rw [if_pos hall]
  exact ⟨_, _, rfl, hW.1, hx.2, rfl, hW.1, hx.2⟩

/-- Witness of C16: the identity layer of two neurons on the column `[1,1]`. -/
theorem computeOutput_shape_identityLayer :
    ∃ (after : DynMiddleLayer) (z : DynMatrix),
      identityLayer.toDyn.computeOutput (DynMatrix.ofMatrix !![1; 1]) = some after ∧
      after.output.rows = 2 ∧ after.output.cols = 1 ∧
      after.weitghtedInput = some z ∧ z.rows = 2 ∧ z.cols = 1 :=
  DynMiddleLayer.computeOutput_shape identityLayer.toDyn (DynMatrix.ofMatrix !![1; 1]) 2 2
    ⟨rfl, rfl⟩ ⟨rfl, rfl⟩ ⟨rfl, rfl⟩

/-! ## What a worker leaves alone -/

namespace WordAnalysisLevel

variable {nIn n1 n2 n3 : ℕ}

theorem foldlM_calculateGradientsExampleMemory :
    ∀ (trainingExamples : List (TrainingExample n3)) (memory : WorkerMemory nIn n1 n2 n3),
      ∃ after : WorkerMemory nIn n1 n2 n3,
        trainingExamples.foldlM calculateGradientsExampleMemory memory = some after ∧
        after.network = memory.network ∧
        after.localCopy.parameters = memory.localCopy.parameters ∧
        trainingExamples.foldlM calculateGradientsExample (memory.localCopy, memory.gradients)
          = some (after.localCopy, after.gradients) := by
  intro trainingExamples
  induction trainingExamples with
  | nil =>
    intro memory
    exact ⟨memory, rfl, rfl, rfl, rfl⟩
  | cons e l ih =>
    intro memory
    obtain ⟨after, h1, h2, h3, h4⟩ := ih
      { memory with
        localCopy := (memory.localCopy.analyzeWord e.1).1
        gradients := memory.gradients + memory.localCopy.parameters.exampleGradients e }
    refine ⟨after, ?_, h2, h3, ?_⟩
    · rw [List.foldlM_cons]
      unfold calculateGradientsExampleMemory at h1 ⊢
      rw [calculateGradientsExample_eq]
      exact h1
    · rw [List.foldlM_cons, calculateGradientsExample_eq]
      exact h4

/-- C17. For every network and every list of examples, `calculateGradients`
returns, and the network it was given is the same after the call as before:
every layer's weights and bias are unchanged (the worker's own copy keeps the
same parameters too, only its caches change). And whenever `backpropagate`
returns, the live network after the call is the live network before it with
the update step of lines 149-196 applied to the workers' collected results:
its encoder and the forward caches of its layers are those before the call. -/
theorem calculateGradients_leaves_network_unchanged (network : WordAnalysisLevel nIn n1 n2 n3)
    (trainingExamples : List (TrainingExample n3)) (gradients : ThreadGradients nIn n1 n2 n3)
    (learningSpeed : ℝ) (maxThreads : ℕ) :
    (∃ after : WorkerMemory nIn n1 n2 n3,
      network.calculateGradientsMemory trainingExamples gradients = some after ∧
      network.calculateGradients trainingExamples gradients = some after.gradients ∧
      after.network = network ∧
      after.network.layers0.getWeights = network.layers0.getWeights ∧
      after.network.layers1.getWeights = network.layers1.getWeights ∧
      after.network.layers2.getWeights = network.layers2.getWeights ∧
      after.network.layers0.bias = network.layers0.bias ∧
      after.network.layers1.bias = network.layers1.bias ∧
      after.network.layers2.bias = network.layers2.bias ∧
      after.localCopy.parameters = network.parameters) ∧
    ∀ (live : WordAnalysisLevel nIn n1 n2 n3) (cost : ℝ),
      network.backpropagate trainingExamples learningSpeed maxThreads = some (live, cost) →
      ∃ (examples : List (List (TrainingExample n3)))
        (collected : List (ThreadGradients nIn n1 n2 n3)),
        (partitionExamples trainingExamples maxThreads).map Prod.fst = some examples ∧
        List.Forall₂
          (fun threadExamples g =>
            ∃ memory : WorkerMemory nIn n1 n2 n3,
              network.calculateGradientsMemory threadExamples (ThreadGradients.zero nIn n1 n2 n3)
                = some memory ∧ memory.network = network ∧ memory.gradients = g)
          examples collected ∧
        (live, cost) = network.reduceAndAdjust trainingExamples.length learningSpeed collected ∧
        live.inputLayer = network.inputLayer ∧
        live.layers0.output = network.layers0.output ∧
        live.layers1.output = network.layers1.output ∧
        live.layers2.output = network.layers2.output ∧
        live.layers0.weitghtedInput = network.layers0.weitghtedInput ∧
        live.layers1.weitghtedInput = network.layers1.weitghtedInput ∧
        live.layers2.weitghtedInput = network.layers2.weitghtedInput := by
  have hmem : ∀ (l : List (TrainingExample n3)) (g : ThreadGradients nIn n1 n2 n3),
      ∃ after : WorkerMemory nIn n1 n2 n3,
        network.calculateGradientsMemory l g = some after ∧
        network.calculateGradients l g = some after.gradients ∧
        after.network = network ∧ after.localCopy.parameters = network.parameters := by
    intro l g
    obtain ⟨after, h1, h2, h3, h4⟩ := foldlM_calculateGradientsExampleMemory l
      { network := network, localCopy := network.copy, gradients := g }
    refine ⟨after, h1, ?_, h2, h3.trans (copy_parameters network)⟩
    unfold calculateGradients
    rw [h4]
    rfl
  constructor
  · obtain ⟨after, h1, h2, h3, h4⟩ := hmem trainingExamples gradients
    refine ⟨after, h1, h2, h3, ?_, ?_, ?_, ?_, ?_, ?_, h4⟩ <;> rw [h3]
  · intro live cost h
    cases hp : partitionExamples trainingExamples maxThreads with
    | none =>
      rw [backpropagate_eq_none_of_partition network trainingExamples learningSpeed
        maxThreads hp] at h
      exact absurd h (by simp)
    | some examples =>
      rw [backpropagate_eq_of_partition network trainingExamples learningSpeed maxThreads
        examples hp] at h
      have hlive := (Option.some.inj h).symm
      have hforall : ∀ l : List (List (TrainingExample n3)),
          List.Forall₂
            (fun threadExamples g =>
              ∃ memory : WorkerMemory nIn n1 n2 n3,
                network.calculateGradientsMemory threadExamples
                    (ThreadGradients.zero nIn n1 n2 n3) = some memory ∧
                  memory.network = network ∧ memory.gradients = g)
            l
            (l.map fun threadExamples =>
              (threadExamples.map network.parameters.exampleGradients).sum) := by
        intro l
        induction l with
        | nil => exact List.Forall₂.nil
        | cons t rest ih =>
          refine List.Forall₂.cons ?_ ih
          obtain ⟨memory, h1, h2, h3, _⟩ := hmem t (ThreadGradients.zero nIn n1 n2 n3)
          refine ⟨memory, h1, h3, ?_⟩
          rw [calculateGradients_eq, ThreadGradients.zero_eq, zero_add] at h2
          exact (Option.some.inj h2).symm
      refine ⟨examples.1, _, rfl, hforall examples.1, hlive, ?_⟩
      have h1 := congrArg Prod.fst hlive
      simp only [] at h1
      rw [h1]
      exact ⟨rfl, rfl, rfl, rfl, rfl, rfl, rfl⟩

end WordAnalysisLevel

/-! ## The activation function as a `float` -/

theorem roundHalfEven_eq_of_near (n : ℤ) (t : ℝ) (h1 : (n : ℝ) - 1 / 2 < t)
    (h2 : t < (n : ℝ) + 1 / 2) : roundHalfEven t = n := by
  unfold roundHalfEven
  by_cases hn : (n : ℝ) ≤ t
  · have hfl : ⌊t⌋ = n := by
      rw [Int.floor_eq_iff]
      constructor
      · exact hn
      · linarith
    have hfr : Int.fract t < 1 / 2 := by
      rw [Int.fract, hfl]
      linarith
    rw [if_pos hfr, hfl]
  · have hn2 : t < (n : ℝ) := lt_of_not_le hn
    have hfl : ⌊t⌋ = n - 1 := by
      rw [Int.floor_eq_iff]
      push_cast
      constructor <;> linarith
    have hfr : 1 / 2 < Int.fract t := by
      rw [Int.fract, hfl]
      push_cast
      linarith
    rw [if_neg (not_lt.2 hfr.le), if_pos hfr, hfl]
    ring

theorem roundHalfEven_le (t : ℝ) : (roundHalfEven t : ℝ) ≤ t + 1 / 2 := by
  have hf := Int.floor_le t
  have hfr : Int.fract t = t - ⌊t⌋ := rfl
  unfold roundHalfEven
  split_ifs with h1 h2 h3
  · linarith
  · push_cast
    linarith
  · linarith
  · push_cast
    have : Int.fract t = 1 / 2 := le_antisymm (not_lt.1 h2) (not_lt.1 h1)
    linarith

theorem le_roundHalfEven (t : ℝ) : t - 1 / 2 ≤ (roundHalfEven t : ℝ) := by
  have hf := Int.lt_floor_add_one t
  have hfr : Int.fract t = t - ⌊t⌋ := rfl
  unfold roundHalfEven
  split_ifs with h1 h2 h3
  · linarith
  · push_cast
    linarith
  · have : Int.fract t = 1 / 2 := le_antisymm (not_lt.1 h2) (not_lt.1 h1)
    linarith
  · push_cast
    linarith

theorem log_two_eq (r : ℝ) (e : ℤ) (hr : 0 < r) (h1 : (2 : ℝ) ^ e ≤ r)
    (h2 : r < (2 : ℝ) ^ (e + 1)) : Int.log 2 r = e := by
  have hb : 1 < 2 := by norm_num
  have ha : e ≤ Int.log 2 r := (Int.zpow_le_iff_le_log hb hr).1 (by exact_mod_cast h1)
  have hc : Int.log 2 r < e + 1 := (Int.lt_zpow_iff_log_lt hb hr).1 (by exact_mod_cast h2)
  omega


theorem roundFloat32_zero : roundFloat32 0 = 0 := by
  unfold roundFloat32
  rw [zero_div, roundHalfEven_eq_of_near 0 0 (by norm_num) (by norm_num)]
  simp

theorem roundFloat32_eq_one (q : ℝ) (h1 : 1 - 1 / 2 ^ 25 < q) (h2 : q < 1 + 1 / 2 ^ 24) :
    roundFloat32 q = 1 := by
  have hq : 0 < q := by
    have : (0 : ℝ) < 1 - 1 / 2 ^ 25 := by norm_num
    linarith
  have habs : |q| = q := abs_of_pos hq
  by_cases hlt : q < 1
  · have he : float32Exponent q = -1 := by
      unfold float32Exponent
      rw [habs, log_two_eq q (-1) hq (by norm_num; linarith) (by norm_num; linarith)]
      norm_num
    unfold roundFloat32
    rw [he]
    have hu : (2 : ℝ) ^ ((-1 : ℤ) - 23) = 1 / 2 ^ 24 := by
      rw [show ((-1 : ℤ) - 23) = -24 by norm_num, zpow_neg, one_div]
      norm_cast
    rw [hu, roundHalfEven_eq_of_near (2 ^ 24) _ (by push_cast; rw [div_div_eq_mul_div, div_one]; norm_num at h1 ⊢; linarith)
      (by push_cast; rw [div_div_eq_mul_div, div_one]; norm_num at h2 ⊢; linarith)]
    push_cast
    norm_num
  · have hge : 1 ≤ q := not_lt.1 hlt
    have he : float32Exponent q = 0 := by
      unfold float32Exponent
      rw [habs, log_two_eq q 0 hq (by norm_num; linarith) (by norm_num at h2 ⊢; linarith)]
      norm_num
    unfold roundFloat32
    rw [he]
    have hu : (2 : ℝ) ^ ((0 : ℤ) - 23) = 1 / 2 ^ 23 := by
      rw [show ((0 : ℤ) - 23) = -23 by norm_num, zpow_neg, one_div]
      norm_cast
    rw [hu, roundHalfEven_eq_of_near (2 ^ 23) _ (by push_cast; rw [div_div_eq_mul_div, div_one]; norm_num at h1 ⊢; linarith)
      (by push_cast; rw [div_div_eq_mul_div, div_one]; norm_num at h2 ⊢; linarith)]
    push_cast
    norm_num


theorem roundFloat32_eq_neg_one (q : ℝ) (h1 : -1 - 1 / 2 ^ 24 < q) (h2 : q < -1 + 1 / 2 ^ 25) :
    roundFloat32 q = -1 := by
  have hq : q < 0 := by
    have : (-1 : ℝ) + 1 / 2 ^ 25 < 0 := by norm_num
    linarith
  have habs : |q| = -q := abs_of_neg hq
  by_cases hlt : -1 < q
  · have he : float32Exponent q = -1 := by
      unfold float32Exponent
      rw [habs, log_two_eq (-q) (-1) (by linarith) (by norm_num at h2 ⊢; linarith)
        (by norm_num; linarith)]
      norm_num
    unfold roundFloat32
    rw [he]
    have hu : (2 : ℝ) ^ ((-1 : ℤ) - 23) = 1 / 2 ^ 24 := by
      rw [show ((-1 : ℤ) - 23) = -24 by norm_num, zpow_neg, one_div]
      norm_cast
    rw [hu, roundHalfEven_eq_of_near (-(2 ^ 24)) _
      (by push_cast; rw [div_div_eq_mul_div, div_one]; norm_num at h1 ⊢; linarith)
      (by push_cast; rw [div_div_eq_mul_div, div_one]; norm_num at h2 ⊢; linarith)]
    push_cast
    norm_num
  · have hge : q ≤ -1 := not_lt.1 hlt
    have he : float32Exponent q = 0 := by
      unfold float32Exponent
      rw [habs, log_two_eq (-q) 0 (by linarith) (by norm_num; linarith)
        (by norm_num at h1 ⊢; linarith)]
      norm_num
    unfold roundFloat32
    rw [he]
    have hu : (2 : ℝ) ^ ((0 : ℤ) - 23) = 1 / 2 ^ 23 := by
      rw [show ((0 : ℤ) - 23) = -23 by norm_num, zpow_neg, one_div]
      norm_cast
    rw [hu, roundHalfEven_eq_of_near (-(2 ^ 23)) _
      (by push_cast; rw [div_div_eq_mul_div, div_one]; norm_num at h1 ⊢; linarith)
      (by push_cast; rw [div_div_eq_mul_div, div_one]; norm_num at h2 ⊢; linarith)]
    push_cast
    norm_num

theorem abs_roundFloat32_le_one_of_abs_lt_one (q : ℝ) (hq0 : q ≠ 0) (hq : |q| < 1) :
    |roundFloat32 q| ≤ 1 := by
  have hb : 1 < 2 := by norm_num
  have hpos : 0 < |q| := abs_pos.2 hq0
  have he0 : Int.log 2 |q| < 0 :=
    (Int.lt_zpow_iff_log_lt hb hpos).1 (by simpa using hq)
  have hlt : |q| < (2 : ℝ) ^ (Int.log 2 |q| + 1) := by
    exact_mod_cast Int.lt_zpow_succ_log_self hb |q|
  have hE1 : float32Exponent q ≤ -1 := by
    unfold float32Exponent
    exact max_le (by omega) (by norm_num)
  have hE2 : Int.log 2 |q| ≤ float32Exponent q := le_max_left _ _
  have hu : (0 : ℝ) < 2 ^ (float32Exponent q - 23) := zpow_pos (by norm_num) _
  have hsplit : (2 : ℝ) ^ (float32Exponent q + 1) = 2 ^ 24 * 2 ^ (float32Exponent q - 23) := by
    rw [show float32Exponent q + 1 = 24 + (float32Exponent q - 23) by ring,
      zpow_add₀ (by norm_num : (2 : ℝ) ≠ 0)]
    norm_cast
  have hq2 : |q| < 2 ^ 24 * 2 ^ (float32Exponent q - 23) := by
    rw [← hsplit]
    exact lt_of_lt_of_le hlt (zpow_le_zpow_right₀ (by norm_num) (by omega))
  have hdiv : |q / 2 ^ (float32Exponent q - 23)| < 2 ^ 24 := by
    rw [abs_div, abs_of_pos hu, div_lt_iff₀ hu]
    exact hq2
  have hup := roundHalfEven_le (q / 2 ^ (float32Exponent q - 23))
  have hlo := le_roundHalfEven (q / 2 ^ (float32Exponent q - 23))
  have habs := abs_lt.1 hdiv
  have hn1 : roundHalfEven (q / 2 ^ (float32Exponent q - 23)) ≤ 2 ^ 24 := by
    have h : (roundHalfEven (q / 2 ^ (float32Exponent q - 23)) : ℝ) < ((2 ^ 24 + 1 : ℤ) : ℝ) := by
      push_cast
      linarith [habs.2]
    have := Int.cast_lt.1 h
    omega
  have hn2 : -(2 ^ 24) ≤ roundHalfEven (q / 2 ^ (float32Exponent q - 23)) := by
    have h : ((-(2 ^ 24) - 1 : ℤ) : ℝ) < (roundHalfEven (q / 2 ^ (float32Exponent q - 23)) : ℝ) := by
      push_cast
      linarith [habs.1]
    have := Int.cast_lt.1 h
    omega
  have hn : |(roundHalfEven (q / 2 ^ (float32Exponent q - 23)) : ℝ)| ≤ 2 ^ 24 := by
    rw [abs_le]
    constructor
    · exact_mod_cast hn2
    · exact_mod_cast hn1
  have hpow : (2 : ℝ) ^ (float32Exponent q + 1) ≤ 1 := by
    have := zpow_le_zpow_right₀ (by norm_num : (1 : ℝ) ≤ 2)
      (show float32Exponent q + 1 ≤ 0 by omega)
    simpa using this
  unfold roundFloat32
  rw [abs_mul, abs_of_pos hu]
  calc |(roundHalfEven (q / 2 ^ (float32Exponent q - 23)) : ℝ)| * 2 ^ (float32Exponent q - 23)
      ≤ 2 ^ 24 * 2 ^ (float32Exponent q - 23) := mul_le_mul_of_nonneg_right hn hu.le
    _ = 2 ^ (float32Exponent q + 1) := hsplit.symm
    _ ≤ 1 := hpow

theorem abs_roundFloat32_le_one (q : ℝ) (hq : |q| < 1 + 1 / 2 ^ 24) :
    -1 ≤ roundFloat32 q ∧ roundFloat32 q ≤ 1 := by
  have h := abs_lt.1 hq
  by_cases h0 : q = 0
  · rw [h0, roundFloat32_zero]
    norm_num
  · by_cases h1 : |q| < 1
    · exact abs_le.1 (abs_roundFloat32_le_one_of_abs_lt_one q h0 h1)
    · have h1' : 1 ≤ |q| := not_lt.1 h1
      rcases le_abs'.1 h1' with hneg | hpos
      · rw [roundFloat32_eq_neg_one q (by linarith [h.1]) (by
          have : (0 : ℝ) < 1 / 2 ^ 25 := by norm_num
          linarith)]
        norm_num
      · rw [roundFloat32_eq_one q (by
          have : (0 : ℝ) < 1 / 2 ^ 25 := by norm_num
          linarith) h.2]
        norm_num

theorem roundFloat32_hundred_million : roundFloat32 100000000 = 100000000 := by
  have he : float32Exponent 100000000 = 26 := by
    unfold float32Exponent
    rw [abs_of_pos (by norm_num), log_two_eq 100000000 26 (by norm_num) (by norm_num)
      (by norm_num)]
    norm_num
  unfold roundFloat32
  rw [he]
  have hu : (2 : ℝ) ^ ((26 : ℤ) - 23) = 8 := by
    rw [show ((26 : ℤ) - 23) = 3 by norm_num]
    norm_num
  rw [hu, roundHalfEven_eq_of_near 12500000 _ (by norm_num) (by norm_num)]
  norm_num

theorem arctan_lt_self (t : ℝ) (ht : 0 < t) : Real.arctan t < t := by
  have h1 : 0 < Real.arctan t := by
    have h := Real.arctan_strictMono ht
    rwa [Real.arctan_zero] at h
  have h2 := Real.lt_tan h1 (Real.arctan_lt_pi_div_two t)
  rwa [Real.tan_arctan] at h2

theorem activationFunction_hundred_million_near_one :
    1 - 1 / 2 ^ 25 < activationFunction 100000000 ∧ activationFunction 100000000 < 1 := by
  have hpi : (3 : ℝ) < Real.pi := Real.pi_gt_three
  have hpos : (0 : ℝ) < Real.pi / 2 := by positivity
  have hinv := Real.arctan_inv_of_pos (show (0 : ℝ) < 100000000⁻¹ by norm_num)
  rw [inv_inv] at hinv
  have hsmall := arctan_lt_self (100000000⁻¹) (by norm_num)
  constructor
  · unfold activationFunction
    rw [hinv, lt_div_iff₀ hpos]
    have h3 : (1 : ℝ) / 2 ^ 25 * (Real.pi / 2) > 100000000⁻¹ := by
      have : (1 : ℝ) / 2 ^ 25 * (3 / 2) > 100000000⁻¹ := by norm_num
      nlinarith
    nlinarith
  · unfold activationFunction
    rw [div_lt_one hpos]
    exact Real.arctan_lt_pi_div_two _

/-- C14 as stated fails. The input `100000000` is a `float`, and the exact
value of `atan(x)/M_PI_2` there lies above `1 - 2⁻²⁵`; every value between
`1 - 2⁻²⁵` and `1 + 2⁻²⁴` converts to the `float` `1`, so `activationFunction`
returns exactly `1`, which is not strictly below `1`. -/
theorem activationFunctionFloat_hundred_million :
    roundFloat32 100000000 = 100000000 ∧
    activationFunctionFloat 100000000 = 1 ∧
    ¬ activationFunctionFloat 100000000 < 1 ∧
    ∀ q : ℝ, 1 - 1 / 2 ^ 25 < q → q < 1 + 1 / 2 ^ 24 → roundFloat32 q = 1 := by
  have h := activationFunction_hundred_million_near_one
  have h1 : activationFunctionFloat 100000000 = 1 := by
    unfold activationFunctionFloat
    exact roundFloat32_eq_one _ h.1 (by
      have : (0 : ℝ) < 1 / 2 ^ 24 := by norm_num
      linarith [h.2])
  refine ⟨roundFloat32_hundred_million, h1, ?_, fun q hq1 hq2 => roundFloat32_eq_one q hq1 hq2⟩
  rw [h1]
  exact lt_irrefl 1

/-- C14, amended. For every `x`, the `float` that `activationFunction` returns
lies between `-1` and `1`, both bounds included, and it is `0` at `0`. The
exact value `atan(x)/(π/2)` lies strictly between `-1` and `1`; it is the
conversion to `float` that can reach a bound, and every value of absolute value
below `1 + 2⁻²⁴` converts to a `float` between `-1` and `1`. -/
theorem activationFunctionFloat_bounds (x : ℝ) :
    -1 ≤ activationFunctionFloat x ∧ activationFunctionFloat x ≤ 1 ∧
    activationFunctionFloat 0 = 0 ∧
    (-1 < activationFunction x ∧ activationFunction x < 1) ∧
    ∀ q : ℝ, |q| < 1 + 1 / 2 ^ 24 → -1 ≤ roundFloat32 q ∧ roundFloat32 q ≤ 1 := by
  have hb := activationFunction_bounds x
  have habs : |activationFunction x| < 1 + 1 / 2 ^ 24 := by
    have : (0 : ℝ) < 1 / 2 ^ 24 := by norm_num
    rw [abs_lt]
    constructor <;> linarith [hb.1, hb.2.1]
  have hr := abs_roundFloat32_le_one (activationFunction x) habs
  refine ⟨hr.1, hr.2, ?_, ⟨hb.1, hb.2.1⟩, abs_roundFloat32_le_one⟩
  unfold activationFunctionFloat
  rw [activationFunction_zero, roundFloat32_zero]

/-! ## The factor in the backpropagated error -/

theorem hasDerivAt_activationFunction_zero :
    HasDerivAt activationFunction (2 / Real.pi) 0 := by
  have h := hasDerivAt_activationFunction 0
  have h1 : atanDeriverate 0 = 1 := by simp [atanDeriverate]
  have e : (1 : ℝ) / (Real.pi / 2) = 2 / Real.pi := by
    field_simp
  rw [h1, e] at h
  exact h

/-- C8, the code at a failing input. On `scalarNetwork 0` and `unitExample` the
last layer has cached the weighted input `0` and `output - target` is `-1`. The
derivative of `activationFunction` at `0` is `2/π`, so the recurrence gives the
last layer the delta `-1 * (2/π)`. From zeroed accumulators `calculateGradients`
accumulates the delta `-1` as that layer's bias gradient: it multiplies by
`atanDeriverate 0 = 1`, which is not the activation's derivative. -/
theorem calculateGradients_delta_scalarNetwork :
    ∃ (g : ThreadGradients 1 1 1 1) (z2 : MatrixXf 1 1),
      (scalarNetwork 0).calculateGradients [unitExample] (ThreadGradients.zero 1 1 1 1)
        = some g ∧
      ((scalarNetwork 0).copy.analyzeWord unitExample.1).1.layers2.getWeightedInput
        = some z2 ∧
      z2 0 0 = 0 ∧
      (((scalarNetwork 0).copy.analyzeWord unitExample.1).2 - unitExample.2) 0 0 = -1 ∧
      HasDerivAt activationFunction (2 / Real.pi) (z2 0 0) ∧
      g.biasesGradients2 0 0 = -1 ∧
      g.biasesGradients2 0 0 ≠ -1 * (2 / Real.pi) := by
  have hz : ((scalarNetwork 0).layers2.connections *
      ((scalarNetwork 0).copy.analyzeWord unitExample.1).1.layers1.getOutput) 0 0 = 0 := by
    simp [scalarNetwork, Matrix.mul_apply]
  have hg : ((scalarNetwork 0).parameters.exampleGradients unitExample).biasesGradients2 0 0
      = -1 := by
    simp [NetworkParameters.exampleGradients, WordAnalysisLevel.parameters, scalarNetwork,
      unitExample, cwiseProduct, atanDeriverateX, atanDeriverate, Matrix.mul_apply,
      activationFunction_one, activationFunction_zero]
  refine ⟨(scalarNetwork 0).parameters.exampleGradients unitExample,
    (scalarNetwork 0).layers2.connections *
      ((scalarNetwork 0).copy.analyzeWord unitExample.1).1.layers1.getOutput,
    ?_, rfl, hz, ?_, ?_, hg, ?_⟩
  · rw [WordAnalysisLevel.calculateGradients_eq, ThreadGradients.zero_eq]
    simp
  · simp [WordAnalysisLevel.analyzeWord, WordAnalysisLevel.copy, MiddleLayer.copy,
      MiddleLayer.computeOutput, MiddleLayer.getOutput, WordsInputLayer.computeOutput,
      WordsInputLayer.getOutput, scalarNetwork, unitExample, Matrix.mul_apply,
      activationFunction_zero]
  · rw [hz]
    exact hasDerivAt_activationFunction_zero
  · rw [hg]
    intro h
    have hpi : Real.pi ≠ 0 := Real.pi_ne_zero
    have h3 := Real.pi_gt_three
    have h4 : (1 : ℝ) = 2 / Real.pi := by linarith
    rw [eq_div_iff hpi] at h4
    linarith

end OpinionANN
